import Mathlib

/-! The collection loop of `lol-matches-collector`.

A shallow embedding of `collect.go` (package `lolmatch`) and theorems about it.

* The HTTP client, the JSON decoder and the operating system are the environment.
  Their answers are given by oracles; an oracle that belongs to a call made during a run
  receives the history of the run (the calls made so far, with their results), so the same
  request may be answered differently at different moments. Cancellation of the context is
  one of the ways a transport call fails.
* The output directory is a map from file paths to file contents, threaded through the code
  as explicit state together with the history. Only the run writes to it, and two paths are
  the same file exactly when `filepath.Join` gives the same string.
* Go's `error` is `Option GoError` (`none` is `nil`); a function returning `(T, error)`
  returns `Except GoError T`. A pointer is an `Option` (`none` is the nil pointer), and
  reading a field through a nil pointer is a panic, which ends `runEntry` and `Run` without
  a return value.
* `Collector.Run` loops without bound, so it is run with a bound on the number of pages
  (`fuel`); the result says whether `Run` returned, panicked, or was still running when the
  bound was hit.
* The page counter, a Go `int` that starts at 1 and grows by one for each page listed, is an
  unbounded integer. The calls of `log.Printf` are left out.
-/

namespace Lolmatch

/-! ## Data types of `collect.go` -/

/-- The Go struct `entry` (collect.go, lines 81-84). -/
structure entry where
  LeagueId : String
  SummonerId : String
deriving DecidableEq, Repr

/-- The Go struct `summoner` (collect.go, lines 118-120). -/
structure summoner where
  PUUID : String
deriving DecidableEq, Repr

/-- The Go type `matchID` (collect.go, line 154): a string. -/
abbrev matchID := String

/-- The Go type `match` (collect.go, line 194): a byte slice. It is spelled `Match`
because `match` is a keyword. -/
abbrev Match := List UInt8

/-- Go error values as the code builds and inspects them.
`sentinel` is the package variable `errNoMoreItems` (line 38); `external` is an error value made
outside the package (by `net/http`, `encoding/json`, `io` or `os`), carrying its message;
`errorf` is `fmt.Errorf` without `%w`; `wrapf msg cause` is `fmt.Errorf(msg + ": %w", cause)`. -/
inductive GoError where
  | sentinel : GoError
  | external (msg : String) : GoError
  | errorf (msg : String) : GoError
  | wrapf (msg : String) (cause : GoError) : GoError
deriving DecidableEq, Repr

/-- The message of an error, `err.Error()`. -/
def GoError.text : GoError → String
  | .sentinel => "no more items"
  | .external msg => msg
  | .errorf msg => msg
  | .wrapf msg cause => msg ++ ": " ++ cause.text

/-- The test `errors.Is(err, errNoMoreItems)`: the sentinel is found by following the chain
of wrapped errors. An error value made outside the package is never the sentinel, which is
an unexported variable. -/
def GoError.isNoMoreItems : GoError → Bool
  | .sentinel => true
  | .external _ => false
  | .errorf _ => false
  | .wrapf _ cause => cause.isNoMoreItems

deriving instance DecidableEq for Except

/-- How a function that returns `error` ends when it does not return nil: it returns a non-nil
error, or it panics (here always the run-time panic of a nil pointer dereference). -/
inductive Exit where
  | error (err : GoError) : Exit
  | panic : Exit
deriving DecidableEq, Repr

/-- What is known of a call of `Run` after a bounded number of pages: it is still running, it
has returned (nil or an error), or it has panicked. -/
inductive RunResult where
  | running : RunResult
  | returned (err : Option GoError) : RunResult
  | panicked : RunResult
deriving DecidableEq, Repr

/-! ## The history of a run -/

/-- One call made by `runEntry`, with its result (`none`, or `false` for `saveMatch`, when the
call returned an error). The history is not in the source: it records what the code did, so
that properties about the calls of a run can be stated. The entries of a page are pointers,
as in the source. -/
inductive Event where
  | listEntries (page : Int) (res : Option (List (Option entry))) : Event
  | getSummoner (summonerId : String) (res : Option summoner) : Event
  | listMatchIDs (puuid : String) (res : Option (List matchID)) : Event
  | matchExist (mid : matchID) (res : Option Bool) : Event
  | getMatch (mid : matchID) (res : Option Match) : Event
  | saveMatch (mid : matchID) (m : Match) (ok : Bool) : Event
deriving DecidableEq, Repr

/-- The call returned an error. -/
def Event.failed : Event → Bool
  | .listEntries _ res => res.isNone
  | .getSummoner _ res => res.isNone
  | .listMatchIDs _ res => res.isNone
  | .matchExist _ res => res.isNone
  | .getMatch _ res => res.isNone
  | .saveMatch _ _ ok => !ok

/-- The call is a `getMatch` of the given id. -/
def Event.isGetMatch (mid : matchID) : Event → Bool
  | .getMatch mid1 _ => mid1 == mid
  | _ => false

/-- The call is a `saveMatch` of the given id. -/
def Event.isSaveMatch (mid : matchID) : Event → Bool
  | .saveMatch mid1 _ _ => mid1 == mid
  | _ => false

/-- The call is a `getMatch` or a `saveMatch`, of any id. -/
def Event.isFetchOrSave : Event → Bool
  | .getMatch _ _ => true
  | .saveMatch _ _ _ => true
  | _ => false

/-- The call opens the processing of a match id (`matchExist`), of a ladder entry
(`getSummoner`) or of a page (`listEntries`). -/
def Event.startsItem : Event → Bool
  | .matchExist _ _ => true
  | .getSummoner _ _ => true
  | .listEntries _ _ => true
  | _ => false

/-- The call is a `matchExist` call. -/
def Event.isCheck : Event → Bool
  | .matchExist _ _ => true
  | _ => false

/-- The call is one of the three listing and lookup calls made outside the loop over match
ids. -/
def Event.isQuery : Event → Bool
  | .listEntries _ _ => true
  | .getSummoner _ _ => true
  | .listMatchIDs _ _ => true
  | _ => false

/-! ## The environment -/

/-- The body of an HTTP response as a reader: the bytes it delivers, and the error the
reader reports after them, if any (`none` is a clean end of stream). -/
structure Body where
  data : List UInt8
  readErr : Option String
deriving DecidableEq, Repr

/-- The fields of `http.Response` the code uses; `dump` is the text
`httputil.DumpResponse(resp, true)` renders for the response. -/
structure Response where
  StatusCode : Int
  Body : Body
  dump : String
deriving DecidableEq, Repr

/-- The libraries and the operating system.
`NewRequest url` is the error of `http.NewRequestWithContext` for a GET of `url`, if it
rejects it. The three decoders are `json.NewDecoder(body).Decode` at the three target types;
the entries are decoded into a slice of pointers (`[]*entry`), where a `null` element of the
JSON array gives a nil pointer.
`Join` is `filepath.Join`. `StatFault`, `CreateFault` and `WriteFault` say when `os.Stat`,
`os.Create` and `File.Write` fail for a reason other than the state of the output directory
(`WriteFault` gives the number of bytes written before the failure). -/
structure Env where
  NewRequest : String → Option String
  decodeEntries : Body → Except String (List (Option entry))
  decodeSummoner : Body → Except String summoner
  decodeMatchIDs : Body → Except String (List matchID)
  Join : String → String → String
  StatFault : List Event → String → Option String
  CreateFault : List Event → String → Option String
  WriteFault : List Event → String → Match → Option (Nat × String)

/-- The Go struct `Collector` (collect.go, lines 19-23), as the receiver of the methods, which
is not nil and has a client. `HttpCli` is the method `HttpCli.Do`, from the history and the
URL of a request to the response or the transport error; `MatchStartTime` is the time as
Unix seconds. -/
structure Collector where
  HttpCli : List Event → String → Except String Response
  OutputDir : String
  MatchStartTime : Int

/-- The state a run works on: the files of the output directory (path to content) and the
history of the run. -/
structure State where
  files : String → Option Match
  trace : List Event

/-- Append a call to the history. -/
def State.log (st : State) (e : Event) : State :=
  { st with trace := st.trace ++ [e] }

/-! ## The operating system calls used by the code -/

/-- The three outcomes of `os.Stat` the code distinguishes. -/
inductive StatResult where
  | found : StatResult
  | notExist : StatResult
  | failed (msg : String) : StatResult
deriving DecidableEq, Repr

/-- The call `os.Stat(path)`. -/
def osStat (env : Env) (st : State) (path : String) : StatResult :=
  match env.StatFault st.trace path with
  | some msg => .failed msg
  | none => if (st.files path).isSome then .found else .notExist

/-- The call `os.Create(path)`: on success the file exists and is empty. -/
def osCreate (env : Env) (st : State) (path : String) : Option String × State :=
  match env.CreateFault st.trace path with
  | some msg => (some msg, st)
  | none => (none, { st with files := Function.update st.files path (some []) })

/-- The call `f.Write(m)` on the file just created at `path`: on success the file holds `m`,
on failure the bytes written before the failure. -/
def fileWrite (env : Env) (st : State) (path : String) (m : Match) : Option String × State :=
  match env.WriteFault st.trace path m with
  | some (n, msg) => (some msg, { st with files := Function.update st.files path (some (m.take n)) })
  | none => (none, { st with files := Function.update st.files path (some m) })

/-- The call `io.ReadAll(body)`. -/
def ioReadAll (b : Body) : Except String (List UInt8) :=
  match b.readErr with
  | some msg => .error msg
  | none => .ok b.data

/-! ## The methods of `Collector` -/

/-- The URL built in `listEntries` (line 90), with `%d` filled in. -/
def entriesURL (page : Int) : String :=
  "https://jp1.api.riotgames.com/lol/league/v4/entries/RANKED_SOLO_5x5/SILVER/I?page="
    ++ toString page

/-- The URL built in `getSummoner` (line 126), with `%s` filled in. -/
def summonerURL (summonerId : String) : String :=
  "https://jp1.api.riotgames.com/lol/summoner/v4/summoners/" ++ summonerId

/-- The URL built in `listMatchIDs` (lines 157-166). The query string is what `url.Values.Encode`
renders for the three parameters, keys in sorted order; `startTime` is `MatchStartTime.Unix()`. -/
def matchIDsURL (c : Collector) (s : summoner) : String :=
  "https://asia.api.riotgames.com/lol/match/v5/matches/by-puuid/" ++ s.PUUID ++ "/ids?"
    ++ ("count=10&startTime=" ++ toString c.MatchStartTime ++ "&type=ranked")

/-- The URL built in `getMatch` (line 200), with `%s` filled in. -/
def matchURL (mid : matchID) : String :=
  "https://asia.api.riotgames.com/lol/match/v5/matches/" ++ mid

/-- The method `Collector.listEntries` (collect.go, lines 86-116). -/
def listEntries (env : Env) (c : Collector) (h : List Event) (page : Int) :
    Except GoError (List (Option entry)) :=
  let url := entriesURL page
  match env.NewRequest url with
  | some err => .error (.wrapf "invalid request" (.external err))
  | none =>
    match c.HttpCli h url with
    | .error err => .error (.wrapf "http" (.external err))
    | .ok resp =>
      if resp.StatusCode ≥ 400 then
        .error (.errorf ("got error status code: " ++ resp.dump))
      else
        match env.decodeEntries resp.Body with
        | .error err => .error (.wrapf "json" (.external err))
        | .ok entries => .ok entries

/-- The method `Collector.getSummoner` (collect.go, lines 122-152). The pointer it returns
with a nil error is the address of the struct it allocates, never nil, so the result is the
struct. -/
def getSummoner (env : Env) (c : Collector) (h : List Event) (summonerId : String) :
    Except GoError summoner :=
  let url := summonerURL summonerId
  match env.NewRequest url with
  | some err => .error (.wrapf "invalid request" (.external err))
  | none =>
    match c.HttpCli h url with
    | .error err => .error (.wrapf "http" (.external err))
    | .ok resp =>
      if resp.StatusCode ≥ 400 then
        .error (.errorf ("got error status code: " ++ resp.dump))
      else
        match env.decodeSummoner resp.Body with
        | .error err => .error (.wrapf "json" (.external err))
        | .ok s => .ok s

/-- The method `Collector.listMatchIDs` (collect.go, lines 156-192). -/
def listMatchIDs (env : Env) (c : Collector) (h : List Event) (s : summoner) :
    Except GoError (List matchID) :=
  let url := matchIDsURL c s
  match env.NewRequest url with
  | some err => .error (.wrapf "invalid request" (.external err))
  | none =>
    match c.HttpCli h url with
    | .error err => .error (.wrapf "http" (.external err))
    | .ok resp =>
      if resp.StatusCode ≥ 400 then
        .error (.errorf ("got error status code: " ++ resp.dump))
      else
        match env.decodeMatchIDs resp.Body with
        | .error err => .error (.wrapf "json" (.external err))
        | .ok res => .ok res

/-- The method `Collector.getMatch` (collect.go, lines 196-225). -/
def getMatch (env : Env) (c : Collector) (h : List Event) (mid : matchID) :
    Except GoError Match :=
  let url := matchURL mid
  match env.NewRequest url with
  | some err => .error (.wrapf "invalid request" (.external err))
  | none =>
    match c.HttpCli h url with
    | .error err => .error (.wrapf "http" (.external err))
    | .ok resp =>
      if resp.StatusCode ≥ 400 then
        .error (.errorf ("got error status code: " ++ resp.dump))
      else
        match ioReadAll resp.Body with
        | .error err => .error (.wrapf "reading body" (.external err))
        | .ok res => .ok res

/-- The path of the file of a match id,
`filepath.Join(c.OutputDir, fmt.Sprintf("%s.json", mid))` (lines 228 and 241). -/
def matchPath (env : Env) (c : Collector) (mid : matchID) : String :=
  env.Join c.OutputDir (mid ++ ".json")

/-- The method `Collector.matchExist` (collect.go, lines 227-238). -/
def matchExist (env : Env) (c : Collector) (st : State) (mid : matchID) : Except GoError Bool :=
  match osStat env st (matchPath env c mid) with
  | .failed msg => .error (.wrapf "os.Stat" (.external msg))
  | .notExist => .ok false
  | .found => .ok true

/-- The method `Collector.saveMatch` (collect.go, lines 240-252). -/
def saveMatch (env : Env) (c : Collector) (st : State) (mid : matchID) (m : Match) :
    Option GoError × State :=
  match osCreate env st (matchPath env c mid) with
  | (some err, st1) => (some (.wrapf "os.Create" (.external err)), st1)
  | (none, st1) =>
    match fileWrite env st1 (matchPath env c mid) m with
    | (some err, st2) => (some (.wrapf "writing failed" (.external err)), st2)
    | (none, st2) => (none, st2)

/-- A Go loop `for _, x := range xs { ... }` whose body may end the enclosing function (by a
`return` of an error, or by a panic): the elements are processed in order and the first
iteration that ends the function ends the loop. -/
def forRange {α ε : Type} (body : State → α → Option ε × State) :
    List α → State → Option ε × State
  | [], st => (none, st)
  | x :: xs, st =>
    match body st x with
    | (some err, st1) => (some err, st1)
    | (none, st1) => forRange body xs st1

/-- The body of the loop over match ids in `runEntry` (collect.go, lines 60-75). -/
def processMatch (env : Env) (c : Collector) (st : State) (mid : matchID) :
    Option GoError × State :=
  match matchExist env c st mid with
  | .error err =>
    (some (.wrapf "failed to check whether a match exists" err), st.log (.matchExist mid none))
  | .ok true => (none, st.log (.matchExist mid (some true)))
  | .ok false =>
    let st1 := st.log (.matchExist mid (some false))
    match getMatch env c st1.trace mid with
    | .error err => (some (.wrapf "failed to get match" err), st1.log (.getMatch mid none))
    | .ok m =>
      let st2 := st1.log (.getMatch mid (some m))
      match saveMatch env c st2 mid m with
      | (some err, st3) =>
        (some (.wrapf "failed to save match" err), st3.log (.saveMatch mid m false))
      | (none, st3) => (none, st3.log (.saveMatch mid m true))

/-- The body of the loop over entries in `runEntry` (collect.go, lines 51-76). The entry is
a pointer; `e.SummonerId` on the nil pointer panics before any call is made. An error
returned inside the loop over match ids is returned by `runEntry`. -/
def processEntry (env : Env) (c : Collector) (st : State) (e : Option entry) :
    Option Exit × State :=
  match e with
  | none => (some .panic, st)
  | some e =>
    match getSummoner env c st.trace e.SummonerId with
    | .error err =>
      (some (.error (.wrapf "failed to get summoner" err)),
        st.log (.getSummoner e.SummonerId none))
    | .ok s =>
      let st1 := st.log (.getSummoner e.SummonerId (some s))
      match listMatchIDs env c st1.trace s with
      | .error err =>
        (some (.error (.wrapf "failed to list match ids" err)),
          st1.log (.listMatchIDs s.PUUID none))
      | .ok mids =>
        match forRange (processMatch env c) mids (st1.log (.listMatchIDs s.PUUID (some mids))) with
        | (some err, st2) => (some (.error err), st2)
        | (none, st2) => (none, st2)

/-- The method `Collector.runEntry` (collect.go, lines 40-79). -/
def runEntry (env : Env) (c : Collector) (st : State) (page : Int) : Option Exit × State :=
  match listEntries env c st.trace page with
  | .error err =>
    (some (.error (.wrapf "failed to list entries" err)), st.log (.listEntries page none))
  | .ok entries =>
    let st1 := st.log (.listEntries page (some entries))
    if entries.length = 0 then
      (some (.error .sentinel), st1)
    else
      forRange (processEntry env c) entries st1

/-- The loop of `Collector.Run` (collect.go, lines 27-35) from a given page, for at most
`fuel` pages. A panic in `runEntry` is not recovered: `Run` panics. -/
def RunFrom (env : Env) (c : Collector) : Nat → Int → State → RunResult × State
  | 0, _, st => (.running, st)
  | fuel + 1, page, st =>
    match runEntry env c st page with
    | (some .panic, st1) => (.panicked, st1)
    | (some (.error err), st1) =>
      if err.isNoMoreItems then
        (.returned none, st1)
      else
        (.returned (some (.wrapf ("failed run entry page " ++ toString page) err)), st1)
    | (none, st1) => RunFrom env c fuel (page + 1) st1

/-- The method `Collector.Run` (collect.go, lines 25-36) on an output directory holding
`files`, for at most `fuel` pages. -/
def Run (env : Env) (c : Collector) (fuel : Nat) (files : String → Option Match) :
    RunResult × State :=
  RunFrom env c fuel 1 { files := files, trace := [] }

/-! ## Vocabulary of the statements -/

/-- The text `runEntry` puts in front of the error of a failed call. -/
def Event.label : Event → String
  | .listEntries _ _ => "failed to list entries"
  | .getSummoner _ _ => "failed to get summoner"
  | .listMatchIDs _ _ => "failed to list match ids"
  | .matchExist _ _ => "failed to check whether a match exists"
  | .getMatch _ _ => "failed to get match"
  | .saveMatch _ _ _ => "failed to save match"

/-- The error text of a library call, if it failed. -/
def failure {α : Type} (r : Except String α) : Option String :=
  match r with
  | .error msg => some msg
  | .ok _ => none

/-- The errors of a remote method for the request of `url` made with the history `h`, with
what in the environment causes each: the text of the library under a fixed tag, or the
status error with the dump of the response. `tag` and `bodyError` are the tag and the failure
of the step that handles the body (the JSON decoder, or `io.ReadAll`). -/
inductive RemoteError (env : Env) (c : Collector) (h : List Event) (url : String)
    (tag : String) (bodyError : Body → Option String) : GoError → Prop where
  | request (msg : String) (hr : env.NewRequest url = some msg) :
    RemoteError env c h url tag bodyError (.wrapf "invalid request" (.external msg))
  | transport (msg : String) (hr : env.NewRequest url = none)
      (ht : c.HttpCli h url = .error msg) :
    RemoteError env c h url tag bodyError (.wrapf "http" (.external msg))
  | status (resp : Response) (hr : env.NewRequest url = none)
      (ht : c.HttpCli h url = .ok resp) (hs : resp.StatusCode ≥ 400) :
    RemoteError env c h url tag bodyError (.errorf ("got error status code: " ++ resp.dump))
  | body (resp : Response) (msg : String) (hr : env.NewRequest url = none)
      (ht : c.HttpCli h url = .ok resp) (hs : ¬ resp.StatusCode ≥ 400)
      (hb : bodyError resp.Body = some msg) :
    RemoteError env c h url tag bodyError (.wrapf tag (.external msg))

/-- The error `cause` is an error the failed call `e`, made with the history `h`, returns,
with what in the environment causes it. -/
def Produced (env : Env) (c : Collector) (h : List Event) : Event → GoError → Prop
  | .listEntries page _, cause =>
    RemoteError env c h (entriesURL page) "json" (fun b => failure (env.decodeEntries b)) cause
  | .getSummoner summonerId _, cause =>
    RemoteError env c h (summonerURL summonerId) "json"
      (fun b => failure (env.decodeSummoner b)) cause
  | .listMatchIDs puuid _, cause =>
    RemoteError env c h (matchIDsURL c ⟨puuid⟩) "json"
      (fun b => failure (env.decodeMatchIDs b)) cause
  | .getMatch mid _, cause =>
    RemoteError env c h (matchURL mid) "reading body" (fun b => failure (ioReadAll b)) cause
  | .matchExist mid _, cause =>
    ∃ msg, env.StatFault h (matchPath env c mid) = some msg ∧
      cause = .wrapf "os.Stat" (.external msg)
  | .saveMatch mid m _, cause =>
    (∃ msg, env.CreateFault h (matchPath env c mid) = some msg ∧
      cause = .wrapf "os.Create" (.external msg)) ∨
    (∃ n msg, env.CreateFault h (matchPath env c mid) = none ∧
      env.WriteFault h (matchPath env c mid) m = some (n, msg) ∧
      cause = .wrapf "writing failed" (.external msg))

/-- The call `e`, made with the history `h`, returns the error `cause`, whatever the files of
the output directory are. -/
def Returned (env : Env) (c : Collector) (h : List Event) : Event → GoError → Prop
  | .listEntries page _, cause => listEntries env c h page = .error cause
  | .getSummoner summonerId _, cause => getSummoner env c h summonerId = .error cause
  | .listMatchIDs puuid _, cause => listMatchIDs env c h ⟨puuid⟩ = .error cause
  | .getMatch mid _, cause => getMatch env c h mid = .error cause
  | .matchExist mid _, cause =>
    ∀ files : String → Option Match, matchExist env c ⟨files, h⟩ mid = .error cause
  | .saveMatch mid m _, cause =>
    ∀ files : String → Option Match, (saveMatch env c ⟨files, h⟩ mid m).1 = some cause

/-- The error `err` is the error `runEntry` returns for a failed call that is the last call of
the history `tr`: the error of that call under the text that names the operation. -/
def Failure (env : Env) (c : Collector) (err : GoError) (tr : List Event) : Prop :=
  ∃ pre e cause, tr = pre ++ [e] ∧ e.failed = true ∧ err = .wrapf e.label cause ∧
    Produced env c pre e cause

/-- The text `needle` occurs in the text `text`. -/
def mentions (text needle : String) : Bool :=
  decide (needle.data <:+: text.data)

/-- How many `getMatch` calls of the id the history has. -/
def fetchCount (mid : matchID) (tr : List Event) : Nat :=
  tr.countP (Event.isGetMatch mid)

/-- How many `saveMatch` calls of the id the history has. -/
def saveCount (mid : matchID) (tr : List Event) : Nat :=
  tr.countP (Event.isSaveMatch mid)

/-- The match ids returned by the `listMatchIDs` calls of a history. -/
def listedIDs (tr : List Event) : List matchID :=
  tr.flatMap fun e => match e with
    | .listMatchIDs _ (some mids) => mids
    | _ => []

/-- The pages of the `listEntries` calls of a history, in order. -/
def listedPages (tr : List Event) : List Int :=
  tr.filterMap fun e => match e with
    | .listEntries page _ => some page
    | _ => none

/-- Which call may directly follow which in a history of `Run`. A failed call, and a
`listEntries` call that found no entries, have no successor. -/
def follows : Event → Event → Bool
  | .listEntries _ (some (_ :: _)), e => e.startsItem
  | .getSummoner _ (some s), .listMatchIDs puuid _ => puuid == s.PUUID
  | .listMatchIDs _ (some _), e => e.startsItem
  | .matchExist _ (some true), e => e.startsItem
  | .matchExist mid (some false), .getMatch mid1 _ => mid1 == mid
  | .getMatch mid (some m), .saveMatch mid1 m1 _ => mid1 == mid && m1 == m
  | .saveMatch _ _ true, e => e.startsItem
  | _, _ => false

/-- The call completed an item: the next match id, entry or page may start after it. -/
def Event.ready : Event → Bool
  | .listEntries _ (some (_ :: _)) => true
  | .listMatchIDs _ (some _) => true
  | .matchExist _ (some true) => true
  | .saveMatch _ _ true => true
  | _ => false

/-- A history at a point where the next item may start. -/
def Ready (tr : List Event) : Prop :=
  List.Chain' (fun a b => follows a b = true) tr ∧ ∀ e ∈ tr.getLast?, e.ready = true

/-- The ids still to be checked after a call, given those still to be checked before it: a
listing sets them, a check takes the first one off. -/
def stepRemaining (rem : List matchID) : Event → List matchID
  | .listMatchIDs _ (some mids) => mids
  | .listMatchIDs _ none => []
  | .getSummoner _ _ => []
  | .listEntries _ _ => []
  | .matchExist _ _ => rem.tail
  | _ => rem

/-- The ids of the last listing of a history that have not been checked yet. -/
def remaining (tr : List Event) : List matchID :=
  tr.foldl stepRemaining []

/-- The call `next` is the one that comes when `rem` are the ids still to be checked: the
check of the first of them, or a lookup or listing call when none is left. -/
def NextOK (rem : List matchID) (next : Event) : Prop :=
  match rem with
  | [] => next.isQuery = true
  | mid :: _ => ∃ r, next = .matchExist mid r

/-- In the history `tr`, read with `rem` the ids still to be checked when it starts, every
check is of the first id still to be checked, and a check that reported the id as present is
followed, if by anything, by the call that comes for the ids left after it. -/
def Ordered : List matchID → List Event → Prop
  | _, [] => True
  | rem, e :: tl =>
    (∀ mid r, e = .matchExist mid r → rem.head? = some mid) ∧
    (∀ mid, e = .matchExist mid (some true) → ∀ n ∈ tl.head?, NextOK rem.tail n) ∧
    Ordered (stepRemaining rem e) tl

/-- The state of the counts of an id while a run goes on: the id was fetched and stored at
most once, not at all if its file was there at the start or is still absent. -/
def CountInv (env : Env) (c : Collector) (files : String → Option Match) (mid : matchID)
    (s : State) : Prop :=
  ((files (matchPath env c mid)).isSome = true →
    (s.files (matchPath env c mid)).isSome = true ∧
    fetchCount mid s.trace = 0 ∧ saveCount mid s.trace = 0) ∧
  ((s.files (matchPath env c mid)).isSome = false →
    fetchCount mid s.trace = 0 ∧ saveCount mid s.trace = 0) ∧
  fetchCount mid s.trace ≤ 1 ∧ saveCount mid s.trace ≤ 1

/-- The state of the counts of an id when a run has returned. -/
def CountExit (env : Env) (c : Collector) (files : String → Option Match) (mid : matchID)
    (s : State) : Prop :=
  ((files (matchPath env c mid)).isSome = true →
    fetchCount mid s.trace = 0 ∧ saveCount mid s.trace = 0) ∧
  fetchCount mid s.trace ≤ 1 ∧ saveCount mid s.trace ≤ 1

/-! ## Invariants used in the proofs -/

/-- Every id listed so far has its file. -/
def ListedPresent (env : Env) (c : Collector) (s : State) : Prop :=
  ∀ mid ∈ listedIDs s.trace, (s.files (matchPath env c mid)).isSome = true

/-- The record of every successful `saveMatch` call of the history is in the file of its
id. -/
def SavedStored (env : Env) (c : Collector) (s : State) : Prop :=
  ∀ mid m, Event.saveMatch mid m true ∈ s.trace → s.files (matchPath env c mid) = some m

/-- A `getMatch` call recorded in the history with a record is a call that returned this
record, made with the history up to it. -/
def CallsLogged (env : Env) (c : Collector) (s : State) : Prop :=
  ∀ (i : Nat) (mid : matchID) (m : Match), s.trace[i]? = some (.getMatch mid (some m)) →
    getMatch env c (s.trace.take i) mid = .ok m

/-- The remote answers a request the same way whenever it is made. -/
def Unchanged (c : Collector) : Prop :=
  ∀ (h1 h2 : List Event) (url : String), c.HttpCli h1 url = c.HttpCli h2 url

/-- The entry is not nil, and the files of all its match ids exist in `files`. -/
def EntryCovered (env : Env) (c : Collector) (files : String → Option Match)
    (x : Option entry) : Prop :=
  ∃ e, x = some e ∧
    ∀ s, getSummoner env c [] e.SummonerId = .ok s →
    ∀ mids, listMatchIDs env c [] s = .ok mids →
    ∀ mid ∈ mids, (files (matchPath env c mid)).isSome = true

/-- No entry of page `page` is nil, and the files of all match ids the page leads to exist
in `files`. -/
def Covered (env : Env) (c : Collector) (files : String → Option Match) (page : Int) : Prop :=
  ∀ es, listEntries env c [] page = .ok es → ∀ x ∈ es, EntryCovered env c files x

/-- The state of a run that has changed no file of `files` and made no `getMatch` and no
`saveMatch` call. -/
def Quiet (files : String → Option Match) (s : State) : Prop :=
  s.files = files ∧ ∀ e ∈ s.trace, e.isFetchOrSave = false

/-! ## One iteration of the loop over match ids, as a relation -/

/-- The six ways one iteration of the loop over match ids ends, with the state it leaves. -/
inductive MatchStep (env : Env) (c : Collector) (st : State) (mid : matchID) :
    Option GoError × State → Prop where
  | statFailed (cause : GoError) (hc : Produced env c st.trace (.matchExist mid none) cause) :
    MatchStep env c st mid
      (some (.wrapf "failed to check whether a match exists" cause),
        ⟨st.files, st.trace ++ [.matchExist mid none]⟩)
  | present (h : (st.files (matchPath env c mid)).isSome = true) :
    MatchStep env c st mid (none, ⟨st.files, st.trace ++ [.matchExist mid (some true)]⟩)
  | fetchFailed (h : st.files (matchPath env c mid) = none) (cause : GoError)
      (hc : Produced env c (st.trace ++ [.matchExist mid (some false)]) (.getMatch mid none)
        cause) :
    MatchStep env c st mid
      (some (.wrapf "failed to get match" cause),
        ⟨st.files, st.trace ++ [.matchExist mid (some false), .getMatch mid none]⟩)
  | createFailed (h : st.files (matchPath env c mid) = none) (m : Match) (cause : GoError)
      (hc : Produced env c (st.trace ++ [.matchExist mid (some false), .getMatch mid (some m)])
        (.saveMatch mid m false) cause)
      (hget : getMatch env c (st.trace ++ [.matchExist mid (some false)]) mid = .ok m) :
    MatchStep env c st mid
      (some (.wrapf "failed to save match" cause),
        ⟨st.files, st.trace ++
          [.matchExist mid (some false), .getMatch mid (some m), .saveMatch mid m false]⟩)
  | writeFailed (h : st.files (matchPath env c mid) = none) (m : Match) (n : Nat)
      (cause : GoError)
      (hc : Produced env c (st.trace ++ [.matchExist mid (some false), .getMatch mid (some m)])
        (.saveMatch mid m false) cause)
      (hget : getMatch env c (st.trace ++ [.matchExist mid (some false)]) mid = .ok m) :
    MatchStep env c st mid
      (some (.wrapf "failed to save match" cause),
        ⟨Function.update st.files (matchPath env c mid) (some (m.take n)), st.trace ++
          [.matchExist mid (some false), .getMatch mid (some m), .saveMatch mid m false]⟩)
  | saved (h : st.files (matchPath env c mid) = none) (m : Match)
      (hget : getMatch env c (st.trace ++ [.matchExist mid (some false)]) mid = .ok m) :
    MatchStep env c st mid
      (none, ⟨Function.update st.files (matchPath env c mid) (some m), st.trace ++
          [.matchExist mid (some false), .getMatch mid (some m), .saveMatch mid m true]⟩)

/-! ## Concrete environments -/

/-- Libraries and an operating system without faults: every URL is accepted, a body is decoded
from its bytes by a fixed table (the body `[6]` stands for the JSON text `[null]`), and paths
are joined with a slash. -/
def demoEnv : Env where
  NewRequest := fun _ => none
  decodeEntries := fun b =>
    if b.data = [1] then .ok [some ⟨"league", "summonerA"⟩, some ⟨"league", "summonerB"⟩]
    else if b.data = [0] then .ok []
    else if b.data = [6] then .ok [none]
    else .error "unexpected end of JSON input"
  decodeSummoner := fun b =>
    if b.data = [2] then .ok ⟨"puuidA"⟩
    else if b.data = [3] then .ok ⟨"puuidB"⟩
    else .error "unexpected end of JSON input"
  decodeMatchIDs := fun b =>
    if b.data = [4] then .ok ["m1", "m2"]
    else if b.data = [5] then .ok ["m2"]
    else .error "unexpected end of JSON input"
  Join := fun dir name => dir ++ "/" ++ name
  StatFault := fun _ _ => none
  CreateFault := fun _ _ => none
  WriteFault := fun _ _ _ => none

/-- A response with the given status code and body. -/
def statusResponse (code : Int) (bs : List UInt8) : Except String Response :=
  .ok ⟨code, ⟨bs, none⟩, "HTTP/1.1 " ++ toString code⟩

/-- The remote of the scenario: page 1 lists the entries A and B, page 2 is empty, A has
the matches m1 and m2, B has the match m2, and the record of m2 is the two bytes 7, 7. -/
def demoRemote (url : String) : Except String Response :=
  if url = "https://jp1.api.riotgames.com/lol/league/v4/entries/RANKED_SOLO_5x5/SILVER/I?page=1"
    then statusResponse 200 [1]
  else if url =
      "https://jp1.api.riotgames.com/lol/league/v4/entries/RANKED_SOLO_5x5/SILVER/I?page=2"
    then statusResponse 200 [0]
  else if url = "https://jp1.api.riotgames.com/lol/summoner/v4/summoners/summonerA"
    then statusResponse 200 [2]
  else if url = "https://jp1.api.riotgames.com/lol/summoner/v4/summoners/summonerB"
    then statusResponse 200 [3]
  else if url = "https://asia.api.riotgames.com/lol/match/v5/matches/by-puuid/puuidA/ids?count=10&startTime=0&type=ranked"
    then statusResponse 200 [4]
  else if url = "https://asia.api.riotgames.com/lol/match/v5/matches/by-puuid/puuidB/ids?count=10&startTime=0&type=ranked"
    then statusResponse 200 [5]
  else if url = "https://asia.api.riotgames.com/lol/match/v5/matches/m2"
    then statusResponse 200 [7, 7]
  else .error "no such host"

/-- The collector of the scenario, writing to the directory `out`. -/
def demoCli : Collector where
  HttpCli := fun _ url => demoRemote url
  OutputDir := "out"
  MatchStartTime := 0

/-- The collector of the scenario, except that the request for `badUrl` is answered with the
status `code` and the body `bs`. -/
def brokenCli (badUrl : String) (code : Int) (bs : List UInt8) : Collector where
  HttpCli := fun _ url => if url = badUrl then statusResponse code bs else demoRemote url
  OutputDir := "out"
  MatchStartTime := 0

/-- The output directory of the scenario: the record of m1 is stored. -/
def demoFiles : String → Option Match :=
  fun path => if path = "out/m1.json" then some [9] else none

/-- The environment without faults, except that every write fails after one byte. -/
def diskFullEnv : Env :=
  { demoEnv with WriteFault := fun _ _ _ => some (1, "no space left on device") }

/-! ## The errors of the six methods -/

theorem listEntries_error {env : Env} {c : Collector} {h : List Event} {page : Int}
    {err : GoError} (he : listEntries env c h page = .error err) :
    RemoteError env c h (entriesURL page) "json" (fun b => failure (env.decodeEntries b)) err := by
  unfold listEntries at he
  simp only at he
  cases hr : env.NewRequest (entriesURL page) with
  | some msg =>
    rw [hr] at he
    cases he
    exact .request msg hr
  | none =>
    rw [hr] at he
    simp only at he
    cases ht : c.HttpCli h (entriesURL page) with
    | error msg =>
      rw [ht] at he
      cases he
      exact .transport msg hr ht
    | ok resp =>
      rw [ht] at he
      simp only at he
      by_cases hs : resp.StatusCode ≥ 400
      · rw [if_pos hs] at he
        cases he
        exact .status resp hr ht hs
      · rw [if_neg hs] at he
        cases hd : env.decodeEntries resp.Body with
        | error msg =>
          rw [hd] at he
          cases he
          exact .body resp msg hr ht hs (by simp [failure, hd])
        | ok v =>
          rw [hd] at he
          cases he

theorem getSummoner_error {env : Env} {c : Collector} {h : List Event} {summonerId : String}
    {err : GoError} (he : getSummoner env c h summonerId = .error err) :
    RemoteError env c h (summonerURL summonerId) "json" (fun b => failure (env.decodeSummoner b)) err := by
  unfold getSummoner at he
  simp only at he
  cases hr : env.NewRequest (summonerURL summonerId) with
  | some msg =>
    rw [hr] at he
    cases he
    exact .request msg hr
  | none =>
    rw [hr] at he
    simp only at he
    cases ht : c.HttpCli h (summonerURL summonerId) with
    | error msg =>
      rw [ht] at he
      cases he
      exact .transport msg hr ht
    | ok resp =>
      rw [ht] at he
      simp only at he
      by_cases hs : resp.StatusCode ≥ 400
      · rw [if_pos hs] at he
        cases he
        exact .status resp hr ht hs
      · rw [if_neg hs] at he
        cases hd : env.decodeSummoner resp.Body with
        | error msg =>
          rw [hd] at he
          cases he
          exact .body resp msg hr ht hs (by simp [failure, hd])
        | ok v =>
          rw [hd] at he
          cases he

theorem listMatchIDs_error {env : Env} {c : Collector} {h : List Event} {s : summoner}
    {err : GoError} (he : listMatchIDs env c h s = .error err) :
    RemoteError env c h (matchIDsURL c s) "json" (fun b => failure (env.decodeMatchIDs b)) err := by
  unfold listMatchIDs at he
  simp only at he
  cases hr : env.NewRequest (matchIDsURL c s) with
  | some msg =>
    rw [hr] at he
    cases he
    exact .request msg hr
  | none =>
    rw [hr] at he
    simp only at he
    cases ht : c.HttpCli h (matchIDsURL c s) with
    | error msg =>
      rw [ht] at he
      cases he
      exact .transport msg hr ht
    | ok resp =>
      rw [ht] at he
      simp only at he
      by_cases hs : resp.StatusCode ≥ 400
      · rw [if_pos hs] at he
        cases he
        exact .status resp hr ht hs
      · rw [if_neg hs] at he
        cases hd : env.decodeMatchIDs resp.Body with
        | error msg =>
          rw [hd] at he
          cases he
          exact .body resp msg hr ht hs (by simp [failure, hd])
        | ok v =>
          rw [hd] at he
          cases he

theorem getMatch_error {env : Env} {c : Collector} {h : List Event} {mid : matchID}
    {err : GoError} (he : getMatch env c h mid = .error err) :
    RemoteError env c h (matchURL mid) "reading body" (fun b => failure (ioReadAll b)) err := by
  unfold getMatch at he
  simp only at he
  cases hr : env.NewRequest (matchURL mid) with
  | some msg =>
    rw [hr] at he
    cases he
    exact .request msg hr
  | none =>
    rw [hr] at he
    simp only at he
    cases ht : c.HttpCli h (matchURL mid) with
    | error msg =>
      rw [ht] at he
      cases he
      exact .transport msg hr ht
    | ok resp =>
      rw [ht] at he
      simp only at he
      by_cases hs : resp.StatusCode ≥ 400
      · rw [if_pos hs] at he
        cases he
        exact .status resp hr ht hs
      · rw [if_neg hs] at he
        cases hd : ioReadAll resp.Body with
        | error msg =>
          rw [hd] at he
          cases he
          exact .body resp msg hr ht hs (by simp [failure, hd])
        | ok v =>
          rw [hd] at he
          cases he

theorem matchExist_error {env : Env} {c : Collector} {st : State} {mid : matchID}
    {err : GoError} (he : matchExist env c st mid = .error err) :
    ∃ msg, env.StatFault st.trace (matchPath env c mid) = some msg ∧
      err = .wrapf "os.Stat" (.external msg) := by
  unfold matchExist osStat at he
  cases hf : env.StatFault st.trace (matchPath env c mid) with
  | some msg =>
    rw [hf] at he
    cases he
    exact ⟨msg, rfl, rfl⟩
  | none =>
    rw [hf] at he
    by_cases hp : (st.files (matchPath env c mid)).isSome = true
    · simp [hp] at he
    · simp [hp] at he

/-- What `matchExist` answers when it does not fail: whether the file of the id exists. -/
theorem matchExist_ok {env : Env} {c : Collector} {st : State} {mid : matchID} {b : Bool}
    (he : matchExist env c st mid = .ok b) :
    b = (st.files (matchPath env c mid)).isSome ∧ env.StatFault st.trace (matchPath env c mid) = none := by
  unfold matchExist osStat at he
  split at he
  · cases he
  · rename_i h1
    split at h1
    · cases h1
    · rename_i h2
      split at h1
      · cases h1
      · rename_i h3; cases he; simp [h3, h2]
  · rename_i h1
    split at h1
    · cases h1
    · rename_i h2
      split at h1
      · rename_i h3; cases he; simp [h3, h2]
      · cases h1

theorem RemoteError.not_noMoreItems {env : Env} {c : Collector} {h : List Event}
    {url tag : String} {bodyError : Body → Option String} {err : GoError}
    (he : RemoteError env c h url tag bodyError err) : err.isNoMoreItems = false := by
  cases he <;> rfl

theorem Produced.is_not_end {env : Env} {c : Collector} {h : List Event} {e : Event}
    {cause : GoError} (hp : Produced env c h e cause) : cause.isNoMoreItems = false := by
  cases e with
  | listEntries page res => exact RemoteError.not_noMoreItems hp
  | getSummoner summonerId res => exact RemoteError.not_noMoreItems hp
  | listMatchIDs puuid res => exact RemoteError.not_noMoreItems hp
  | getMatch mid res => exact RemoteError.not_noMoreItems hp
  | matchExist mid res =>
    obtain ⟨msg, -, rfl⟩ := hp
    rfl
  | saveMatch mid m ok =>
    rcases hp with ⟨msg, -, rfl⟩ | ⟨n, msg, -, -, rfl⟩ <;> rfl

theorem failure_eq_some {α : Type} {r : Except String α} {msg : String}
    (h : failure r = some msg) : r = .error msg := by
  cases r with
  | error e => simp [failure] at h; rw [h]
  | ok a => simp [failure] at h

/-- An error a failed call is said to produce is the error the method returns for it. -/
theorem Produced.returned {env : Env} {c : Collector} {h : List Event} {e : Event}
    {cause : GoError} (hp : Produced env c h e cause) : Returned env c h e cause := by
  cases e with
  | listEntries page res =>
    show listEntries env c h page = .error cause
    cases hp with
    | request msg hr => simp [listEntries, hr]
    | transport msg hr ht => simp [listEntries, hr, ht]
    | status resp hr ht hs => simp [listEntries, hr, ht, hs]
    | body resp msg hr ht hs hb => simp [listEntries, hr, ht, hs, failure_eq_some hb]
  | getSummoner summonerId res =>
    show getSummoner env c h summonerId = .error cause
    cases hp with
    | request msg hr => simp [getSummoner, hr]
    | transport msg hr ht => simp [getSummoner, hr, ht]
    | status resp hr ht hs => simp [getSummoner, hr, ht, hs]
    | body resp msg hr ht hs hb => simp [getSummoner, hr, ht, hs, failure_eq_some hb]
  | listMatchIDs puuid res =>
    show listMatchIDs env c h ⟨puuid⟩ = .error cause
    cases hp with
    | request msg hr => simp [listMatchIDs, hr]
    | transport msg hr ht => simp [listMatchIDs, hr, ht]
    | status resp hr ht hs => simp [listMatchIDs, hr, ht, hs]
    | body resp msg hr ht hs hb => simp [listMatchIDs, hr, ht, hs, failure_eq_some hb]
  | getMatch mid res =>
    show getMatch env c h mid = .error cause
    cases hp with
    | request msg hr => simp [getMatch, hr]
    | transport msg hr ht => simp [getMatch, hr, ht]
    | status resp hr ht hs => simp [getMatch, hr, ht, hs]
    | body resp msg hr ht hs hb => simp [getMatch, hr, ht, hs, failure_eq_some hb]
  | matchExist mid res =>
    obtain ⟨msg, hs, rfl⟩ := hp
    intro files
    simp [matchExist, osStat, hs]
  | saveMatch mid m ok =>
    intro files
    rcases hp with ⟨msg, hc, rfl⟩ | ⟨n, msg, hc, hw, rfl⟩
    · simp [saveMatch, osCreate, hc]
    · simp [saveMatch, osCreate, fileWrite, hc, hw]

/-- The three ways `saveMatch` ends. -/
theorem saveMatch_cases (env : Env) (c : Collector) (st : State) (mid : matchID) (m : Match) :
    (∃ msg, env.CreateFault st.trace (matchPath env c mid) = some msg ∧
      saveMatch env c st mid m = (some (.wrapf "os.Create" (.external msg)), st)) ∨
    (∃ n msg, env.CreateFault st.trace (matchPath env c mid) = none ∧
      env.WriteFault st.trace (matchPath env c mid) m = some (n, msg) ∧
      saveMatch env c st mid m = (some (.wrapf "writing failed" (.external msg)),
        { st with files := Function.update st.files (matchPath env c mid) (some (m.take n)) })) ∨
    (env.CreateFault st.trace (matchPath env c mid) = none ∧
      env.WriteFault st.trace (matchPath env c mid) m = none ∧
      saveMatch env c st mid m =
        (none, { st with files := Function.update st.files (matchPath env c mid) (some m) })) := by
  unfold saveMatch osCreate fileWrite
  cases hc : env.CreateFault st.trace (matchPath env c mid) with
  | some msg => left; exact ⟨msg, rfl, rfl⟩
  | none =>
    right
    cases hw : env.WriteFault st.trace (matchPath env c mid) m with
    | some nm =>
      left
      obtain ⟨n, msg⟩ := nm
      refine ⟨n, msg, rfl, rfl, ?_⟩
      simp [hw]
    | none =>
      right
      refine ⟨rfl, rfl, ?_⟩
      simp [hw]

/-! ## One iteration of the loop over match ids -/

theorem processMatch_step (env : Env) (c : Collector) (st : State) (mid : matchID) :
    MatchStep env c st mid (processMatch env c st mid) := by
  unfold processMatch
  cases hx : matchExist env c st mid with
  | error err =>
    simp only [State.log]
    exact .statFailed err (matchExist_error hx)
  | ok b =>
    have hb := (matchExist_ok hx).1
    cases b with
    | true =>
      simp only [State.log]
      exact .present hb.symm
    | false =>
      have habs : st.files (matchPath env c mid) = none := by
        cases hf : st.files (matchPath env c mid) with
        | none => rfl
        | some x => rw [hf] at hb; simp at hb
      simp only [State.log]
      cases hg : getMatch env c (st.trace ++ [.matchExist mid (some false)]) mid with
      | error err =>
        simp only [List.append_assoc, List.singleton_append]
        exact .fetchFailed habs err (getMatch_error hg)
      | ok m =>
        simp only
        rcases saveMatch_cases env c
          ⟨st.files, st.trace ++ [.matchExist mid (some false)] ++ [.getMatch mid (some m)]⟩
          mid m with ⟨msg, hc, hs⟩ | ⟨n, msg, hc, hw, hs⟩ | ⟨-, -, hs⟩
        · rw [hs]
          simp only [List.append_assoc, List.singleton_append] at hc ⊢
          exact .createFailed habs m _ (Or.inl ⟨msg, hc, rfl⟩) hg
        · rw [hs]
          simp only [List.append_assoc, List.singleton_append] at hc hw ⊢
          exact .writeFailed habs m n _ (Or.inr ⟨n, msg, hc, hw, rfl⟩) hg
        · rw [hs]
          simp only [List.append_assoc, List.singleton_append]
          exact .saved habs m hg

/-! ## The loops -/

theorem forRange_nil {α ε : Type} (body : State → α → Option ε × State) (st : State) :
    forRange body [] st = (none, st) := rfl

theorem forRange_cons_error {α ε : Type} {body : State → α → Option ε × State} {st : State}
    {x : α} {err : ε} (xs : List α) (h : (body st x).1 = some err) :
    forRange body (x :: xs) st = body st x := by
  rcases hb : body st x with ⟨r, st1⟩
  rw [hb] at h
  simp only at h
  subst h
  simp [forRange, hb]

theorem forRange_cons_ok {α ε : Type} {body : State → α → Option ε × State} {st : State}
    {x : α} (xs : List α) (h : (body st x).1 = none) :
    forRange body (x :: xs) st = forRange body xs (body st x).2 := by
  rcases hb : body st x with ⟨r, st1⟩
  rw [hb] at h
  simp only at h
  subst h
  simp [forRange, hb]

/-- Loop invariant: if each iteration keeps `I` when it continues and gives `X err` when it
ends the function with `err`, so does the loop. -/
theorem forRange_inv {α ε : Type} (body : State → α → Option ε × State)
    (I : State → Prop) (X : ε → State → Prop) (l : List α)
    (hbody : ∀ st x, x ∈ l → I st →
      ((body st x).1 = none → I (body st x).2) ∧
      (∀ err, (body st x).1 = some err → X err (body st x).2)) :
    ∀ st, I st →
      ((forRange body l st).1 = none → I (forRange body l st).2) ∧
      (∀ err, (forRange body l st).1 = some err → X err (forRange body l st).2) := by
  induction l with
  | nil =>
    intro st hI
    simp [forRange_nil, hI]
  | cons x xs ih =>
    intro st hI
    have hb := hbody st x (List.mem_cons_self x xs) hI
    cases hr : (body st x).1 with
    | some err =>
      rw [forRange_cons_error xs hr]
      exact ⟨fun h => (by rw [hr] at h; cases h), fun e he => hb.2 e he⟩
    | none =>
      rw [forRange_cons_ok xs hr]
      exact ih (fun st1 y hy => hbody st1 y (List.mem_cons_of_mem x hy)) _ (hb.1 hr)

/-- The processing of a nil entry panics at once. -/
theorem processEntry_nil (env : Env) (c : Collector) (st : State) :
    processEntry env c st none = (some .panic, st) := rfl

/-- The three ways the processing of one entry that is not nil goes. -/
theorem processEntry_cases (env : Env) (c : Collector) (st : State) (e : entry) :
    (∃ cause, getSummoner env c st.trace e.SummonerId = .error cause ∧
      processEntry env c st (some e) =
      (some (.error (.wrapf "failed to get summoner" cause)),
        ⟨st.files, st.trace ++ [.getSummoner e.SummonerId none]⟩)) ∨
    (∃ s cause, getSummoner env c st.trace e.SummonerId = .ok s ∧
      listMatchIDs env c (st.trace ++ [.getSummoner e.SummonerId (some s)]) s = .error cause ∧
      processEntry env c st (some e) =
      (some (.error (.wrapf "failed to list match ids" cause)),
        ⟨st.files, st.trace ++
          [.getSummoner e.SummonerId (some s), .listMatchIDs s.PUUID none]⟩)) ∨
    (∃ s mids, getSummoner env c st.trace e.SummonerId = .ok s ∧
      listMatchIDs env c (st.trace ++ [.getSummoner e.SummonerId (some s)]) s = .ok mids ∧
      processEntry env c st (some e) =
        ((forRange (processMatch env c) mids
          ⟨st.files, st.trace ++
            [.getSummoner e.SummonerId (some s), .listMatchIDs s.PUUID (some mids)]⟩).1.map
          Exit.error,
         (forRange (processMatch env c) mids
          ⟨st.files, st.trace ++
            [.getSummoner e.SummonerId (some s), .listMatchIDs s.PUUID (some mids)]⟩).2)) := by
  cases hs : getSummoner env c st.trace e.SummonerId with
  | error err =>
    left
    exact ⟨err, rfl, by simp [processEntry, hs, State.log]⟩
  | ok s =>
    right
    cases hl : listMatchIDs env c (st.trace ++ [.getSummoner e.SummonerId (some s)]) s with
    | error err =>
      left
      exact ⟨s, err, rfl, hl, by simp [processEntry, hs, hl, State.log]⟩
    | ok mids =>
      right
      refine ⟨s, mids, rfl, hl, ?_⟩
      simp only [processEntry, hs, hl, State.log, List.append_assoc, List.singleton_append]
      generalize forRange (processMatch env c) mids
        ⟨st.files, st.trace ++
          [.getSummoner e.SummonerId (some s), .listMatchIDs s.PUUID (some mids)]⟩ = r
      obtain ⟨r1, st2⟩ := r
      cases r1 <;> rfl

/-- The three ways the processing of one page goes. -/
theorem runEntry_cases (env : Env) (c : Collector) (st : State) (page : Int) :
    (∃ cause, listEntries env c st.trace page = .error cause ∧ runEntry env c st page =
      (some (.error (.wrapf "failed to list entries" cause)),
        ⟨st.files, st.trace ++ [.listEntries page none]⟩)) ∨
    (listEntries env c st.trace page = .ok [] ∧ runEntry env c st page =
      (some (.error .sentinel), ⟨st.files, st.trace ++ [.listEntries page (some [])]⟩)) ∨
    (∃ e es, listEntries env c st.trace page = .ok (e :: es) ∧ runEntry env c st page =
      forRange (processEntry env c) (e :: es)
        ⟨st.files, st.trace ++ [.listEntries page (some (e :: es))]⟩) := by
  unfold runEntry
  cases hl : listEntries env c st.trace page with
  | error err =>
    left
    exact ⟨err, rfl, rfl⟩
  | ok entries =>
    right
    cases entries with
    | nil => left; exact ⟨rfl, rfl⟩
    | cons e es => right; exact ⟨e, es, rfl, by simp [State.log]⟩
/-! ## The order of the calls -/

theorem follows_of_ready {a b : Event} (ha : a.ready = true) (hb : b.startsItem = true) :
    follows a b = true := by
  unfold Event.ready at ha
  split at ha
  · cases b <;> simp_all [follows, Event.startsItem]
  · cases b <;> simp_all [follows, Event.startsItem]
  · cases b <;> simp_all [follows, Event.startsItem]
  · cases b <;> simp_all [follows, Event.startsItem]
  · cases ha

theorem failed_no_successor {a b : Event} (ha : a.failed = true) : follows a b = false := by
  cases a <;> simp [Event.failed] at ha <;> subst ha <;> simp [follows]

theorem Ready.nil : Ready [] := by
  simp [Ready]

theorem Ready.chain_append {tr evs : List Event} (h : Ready tr)
    (hc : List.Chain' (fun a b => follows a b = true) evs)
    (hh : ∀ y ∈ evs.head?, y.startsItem = true) :
    List.Chain' (fun a b => follows a b = true) (tr ++ evs) :=
  List.Chain'.append h.1 hc (fun x hx y hy => follows_of_ready (h.2 x hx) (hh y hy))

theorem Ready.ready_append {tr evs : List Event} (h : Ready tr)
    (hc : List.Chain' (fun a b => follows a b = true) evs)
    (hh : ∀ y ∈ evs.head?, y.startsItem = true)
    (hl : ∃ e, evs.getLast? = some e ∧ e.ready = true) : Ready (tr ++ evs) := by
  refine ⟨h.chain_append hc hh, ?_⟩
  obtain ⟨e, he, hr⟩ := hl
  intro x hx
  rw [List.getLast?_append, he] at hx
  simp at hx
  subst hx
  exact hr

theorem processMatch_chain (env : Env) (c : Collector) (st : State) (mid : matchID)
    (h : Ready st.trace) :
    ((processMatch env c st mid).1 = none → Ready (processMatch env c st mid).2.trace) ∧
    (∀ err, (processMatch env c st mid).1 = some err →
      List.Chain' (fun a b => follows a b = true) (processMatch env c st mid).2.trace) := by
  have hs := processMatch_step env c st mid
  generalize processMatch env c st mid = r at hs
  cases hs with
  | statFailed cause hc =>
    exact ⟨(fun h0 => by cases h0), fun _ _ => h.chain_append (by simp) (by simp [Event.startsItem])⟩
  | present hp =>
    exact ⟨fun _ => h.ready_append (by simp) (by simp [Event.startsItem]) ⟨_, rfl, rfl⟩,
      fun _ h0 => by cases h0⟩
  | fetchFailed ha cause hc =>
    exact ⟨(fun h0 => by cases h0),
      fun _ _ => h.chain_append (by simp [follows]) (by simp [Event.startsItem])⟩
  | createFailed ha m cause hc =>
    exact ⟨(fun h0 => by cases h0),
      fun _ _ => h.chain_append (by simp [follows]) (by simp [Event.startsItem])⟩
  | writeFailed ha m n cause hc =>
    exact ⟨(fun h0 => by cases h0),
      fun _ _ => h.chain_append (by simp [follows]) (by simp [Event.startsItem])⟩
  | saved ha m hget =>
    exact ⟨fun _ => h.ready_append (by simp [follows]) (by simp [Event.startsItem]) ⟨_, rfl, rfl⟩,
      fun _ h0 => by cases h0⟩

/-- What a loop over match ids gives, as a part of the processing of an entry. -/
theorem lift_matchLoop (r : Option GoError × State) (I : State → Prop)
    (X : GoError → State → Prop)
    (h : (r.1 = none → I r.2) ∧ (∀ err, r.1 = some err → X err r.2)) :
    ((r.1.map Exit.error, r.2).1 = none → I r.2) ∧
    (∀ x, (r.1.map Exit.error, r.2).1 = some x → ∃ err, x = .error err ∧ X err r.2) := by
  obtain ⟨r1, st⟩ := r
  cases r1 with
  | none => exact ⟨fun _ => h.1 rfl, fun x hx => by cases hx⟩
  | some err =>
    refine ⟨(fun h0 => by cases h0), fun x hx => ?_⟩
    cases hx
    exact ⟨err, rfl, h.2 err rfl⟩

theorem processEntry_chain (env : Env) (c : Collector) (st : State) (x : Option entry)
    (h : Ready st.trace) :
    ((processEntry env c st x).1 = none → Ready (processEntry env c st x).2.trace) ∧
    (∀ err, (processEntry env c st x).1 = some err →
      List.Chain' (fun a b => follows a b = true) (processEntry env c st x).2.trace ∧
      (err = .panic → Ready (processEntry env c st x).2.trace)) := by
  cases x with
  | none =>
    rw [processEntry_nil]
    exact ⟨fun _ => h, fun _ _ => ⟨h.1, fun _ => h⟩⟩
  | some e =>
    rcases processEntry_cases env c st e with ⟨cause, -, hr⟩ | ⟨s, cause, -, -, hr⟩ |
      ⟨s, mids, -, -, hr⟩
    · rw [hr]
      exact ⟨(fun h0 => by cases h0), fun _ h0 =>
        ⟨h.chain_append (by simp) (by simp [Event.startsItem]), fun h1 => by
          rw [h1] at h0; cases h0⟩⟩
    · rw [hr]
      exact ⟨(fun h0 => by cases h0), fun _ h0 =>
        ⟨h.chain_append (by simp [follows]) (by simp [Event.startsItem]), fun h1 => by
          rw [h1] at h0; cases h0⟩⟩
    · rw [hr]
      have h2 : Ready (st.trace ++
          [.getSummoner e.SummonerId (some s), .listMatchIDs s.PUUID (some mids)]) :=
        h.ready_append (by simp [follows]) (by simp [Event.startsItem]) ⟨_, rfl, rfl⟩
      have hl := lift_matchLoop _ (fun st => Ready st.trace)
        (fun _ st => List.Chain' (fun a b => follows a b = true) st.trace)
        (forRange_inv (processMatch env c) (fun st => Ready st.trace)
        (fun _ st => List.Chain' (fun a b => follows a b = true) st.trace) mids
        (fun st1 mid _ h1 => processMatch_chain env c st1 mid h1)
        ⟨st.files, st.trace ++
          [.getSummoner e.SummonerId (some s), .listMatchIDs s.PUUID (some mids)]⟩ h2)
      refine ⟨hl.1, fun x hx => ?_⟩
      obtain ⟨err, rfl, hc⟩ := hl.2 x hx
      exact ⟨hc, fun h1 => by cases h1⟩

theorem runEntry_chain (env : Env) (c : Collector) (st : State) (page : Int)
    (h : Ready st.trace) :
    ((runEntry env c st page).1 = none → Ready (runEntry env c st page).2.trace) ∧
    (∀ err, (runEntry env c st page).1 = some err →
      List.Chain' (fun a b => follows a b = true) (runEntry env c st page).2.trace ∧
      (err = .panic → Ready (runEntry env c st page).2.trace)) := by
  rcases runEntry_cases env c st page with ⟨cause, -, hr⟩ | ⟨-, hr⟩ | ⟨e, es, -, hr⟩
  · rw [hr]
    exact ⟨(fun h0 => by cases h0), fun _ h0 =>
      ⟨h.chain_append (by simp) (by simp [Event.startsItem]), fun h1 => by
        rw [h1] at h0; cases h0⟩⟩
  · rw [hr]
    exact ⟨(fun h0 => by cases h0), fun _ h0 =>
      ⟨h.chain_append (by simp) (by simp [Event.startsItem]), fun h1 => by
        rw [h1] at h0; cases h0⟩⟩
  · rw [hr]
    exact forRange_inv (processEntry env c) (fun st => Ready st.trace)
      (fun err st => List.Chain' (fun a b => follows a b = true) st.trace ∧
        (err = .panic → Ready st.trace)) (e :: es)
      (fun st1 x _ h1 => processEntry_chain env c st1 x h1) _
      (h.ready_append (by simp) (by simp [Event.startsItem]) ⟨_, rfl, rfl⟩)

/-- The three ways one turn of the loop of `Run` goes. -/
theorem RunFrom_succ (env : Env) (c : Collector) (fuel : Nat) (page : Int) (st : State) :
    ((runEntry env c st page).1 = none ∧
      RunFrom env c (fuel + 1) page st = RunFrom env c fuel (page + 1) (runEntry env c st page).2) ∨
    (∃ err, (runEntry env c st page).1 = some (.error err) ∧
      RunFrom env c (fuel + 1) page st =
        (if err.isNoMoreItems then .returned none
          else .returned (some (.wrapf ("failed run entry page " ++ toString page) err)),
         (runEntry env c st page).2)) ∨
    ((runEntry env c st page).1 = some .panic ∧
      RunFrom env c (fuel + 1) page st = (.panicked, (runEntry env c st page).2)) := by
  rcases hr : runEntry env c st page with ⟨r, st1⟩
  cases r with
  | none => left; simp [RunFrom, hr]
  | some x =>
    right
    cases x with
    | error err =>
      left
      refine ⟨err, rfl, ?_⟩
      simp only [RunFrom, hr]
      split <;> rfl
    | panic =>
      right
      exact ⟨rfl, by simp [RunFrom, hr]⟩

theorem RunFrom_chain (env : Env) (c : Collector) (fuel : Nat) :
    ∀ (page : Int) (st : State), Ready st.trace →
      List.Chain' (fun a b => follows a b = true) (RunFrom env c fuel page st).2.trace ∧
      ((RunFrom env c fuel page st).1 = .running ∨ (RunFrom env c fuel page st).1 = .panicked →
        Ready (RunFrom env c fuel page st).2.trace) := by
  induction fuel with
  | zero =>
    intro page st h
    exact ⟨h.1, fun _ => h⟩
  | succ n ih =>
    intro page st h
    have hre := runEntry_chain env c st page h
    rcases RunFrom_succ env c n page st with ⟨h0, hr⟩ | ⟨err, h0, hr⟩ | ⟨h0, hr⟩
    · rw [hr]
      exact ih _ _ (hre.1 h0)
    · rw [hr]
      refine ⟨(hre.2 _ h0).1, fun h1 => ?_⟩
      rcases h1 with h1 | h1 <;> (split at h1 <;> cases h1)
    · rw [hr]
      exact ⟨(hre.2 _ h0).1, fun _ => (hre.2 _ h0).2 rfl⟩
/-! ## How a page ends -/

theorem listedPages_append (a b : List Event) :
    listedPages (a ++ b) = listedPages a ++ listedPages b := by
  simp [listedPages, List.filterMap_append]

theorem processMatch_outcome (env : Env) (c : Collector) (st : State) (mid : matchID) :
    listedPages (processMatch env c st mid).2.trace = listedPages st.trace ∧
    (∀ err, (processMatch env c st mid).1 = some err →
      Failure env c err (processMatch env c st mid).2.trace) := by
  have hs := processMatch_step env c st mid
  generalize processMatch env c st mid = r at hs
  cases hs with
  | statFailed cause hc =>
    refine ⟨by simp [listedPages_append, listedPages], fun err he => ?_⟩
    cases he
    exact ⟨st.trace, .matchExist mid none, cause, rfl, rfl, rfl, hc⟩
  | present hp =>
    exact ⟨by simp [listedPages_append, listedPages], fun err he => by cases he⟩
  | fetchFailed ha cause hc =>
    refine ⟨by simp [listedPages_append, listedPages], fun err he => ?_⟩
    cases he
    exact ⟨st.trace ++ [.matchExist mid (some false)], .getMatch mid none, cause, by simp,
      rfl, rfl, hc⟩
  | createFailed ha m cause hc =>
    refine ⟨by simp [listedPages_append, listedPages], fun err he => ?_⟩
    cases he
    exact ⟨st.trace ++ [.matchExist mid (some false), .getMatch mid (some m)],
      .saveMatch mid m false, cause, by simp, rfl, rfl, hc⟩
  | writeFailed ha m n cause hc =>
    refine ⟨by simp [listedPages_append, listedPages], fun err he => ?_⟩
    cases he
    exact ⟨st.trace ++ [.matchExist mid (some false), .getMatch mid (some m)],
      .saveMatch mid m false, cause, by simp, rfl, rfl, hc⟩
  | saved ha m hget =>
    exact ⟨by simp [listedPages_append, listedPages], fun err he => by cases he⟩

theorem matchLoop_outcome (env : Env) (c : Collector) (mids : List matchID) (st : State) :
    listedPages (forRange (processMatch env c) mids st).2.trace = listedPages st.trace ∧
    (∀ err, (forRange (processMatch env c) mids st).1 = some err →
      Failure env c err (forRange (processMatch env c) mids st).2.trace) := by
  have h := forRange_inv (processMatch env c)
    (fun s => listedPages s.trace = listedPages st.trace)
    (fun err s => listedPages s.trace = listedPages st.trace ∧ Failure env c err s.trace) mids
    (fun s mid _ hI =>
      ⟨fun _ => (processMatch_outcome env c s mid).1.trans hI,
       fun err he => ⟨(processMatch_outcome env c s mid).1.trans hI,
        (processMatch_outcome env c s mid).2 err he⟩⟩) st rfl
  cases hr : (forRange (processMatch env c) mids st).1 with
  | none => exact ⟨h.1 hr, fun err he => by cases he⟩
  | some err =>
    refine ⟨(h.2 err hr).1, fun err1 he => ?_⟩
    cases he
    exact (h.2 err hr).2

theorem processEntry_outcome (env : Env) (c : Collector) (st : State) (x : Option entry) :
    listedPages (processEntry env c st x).2.trace = listedPages st.trace ∧
    (∀ err, (processEntry env c st x).1 = some (.error err) →
      Failure env c err (processEntry env c st x).2.trace) := by
  cases x with
  | none =>
    rw [processEntry_nil]
    exact ⟨rfl, fun err he => by cases he⟩
  | some e =>
    rcases processEntry_cases env c st e with ⟨cause, hc, hr⟩ | ⟨s, cause, -, hc, hr⟩ |
      ⟨s, mids, -, -, hr⟩
    · rw [hr]
      refine ⟨by simp [listedPages_append, listedPages], fun err he => ?_⟩
      cases he
      exact ⟨st.trace, .getSummoner e.SummonerId none, cause, rfl, rfl, rfl,
        getSummoner_error hc⟩
    · rw [hr]
      refine ⟨by simp [listedPages_append, listedPages], fun err he => ?_⟩
      cases he
      exact ⟨st.trace ++ [.getSummoner e.SummonerId (some s)], .listMatchIDs s.PUUID none,
        cause, by simp, rfl, rfl, listMatchIDs_error hc⟩
    · rw [hr]
      have h := matchLoop_outcome env c mids
        ⟨st.files, st.trace ++
          [.getSummoner e.SummonerId (some s), .listMatchIDs s.PUUID (some mids)]⟩
      refine ⟨h.1.trans (by simp [listedPages_append, listedPages]), fun err he => ?_⟩
      obtain ⟨err1, h1, h2⟩ := (lift_matchLoop _ (fun _ => True)
        (fun err s => Failure env c err s.trace) ⟨fun _ => trivial, h.2⟩).2 _ he
      cases h1
      exact h2

theorem entryLoop_outcome (env : Env) (c : Collector) (es : List (Option entry))
    (st : State) :
    listedPages (forRange (processEntry env c) es st).2.trace = listedPages st.trace ∧
    (∀ err, (forRange (processEntry env c) es st).1 = some (.error err) →
      Failure env c err (forRange (processEntry env c) es st).2.trace) := by
  have h := forRange_inv (processEntry env c)
    (fun s => listedPages s.trace = listedPages st.trace)
    (fun x s => listedPages s.trace = listedPages st.trace ∧
      ∀ err, x = .error err → Failure env c err s.trace) es
    (fun s x _ hI =>
      ⟨fun _ => (processEntry_outcome env c s x).1.trans hI,
       fun y he => ⟨(processEntry_outcome env c s x).1.trans hI, fun err hy => by
        subst hy
        exact (processEntry_outcome env c s x).2 err he⟩⟩) st rfl
  cases hr : (forRange (processEntry env c) es st).1 with
  | none => exact ⟨h.1 hr, fun err he => by cases he⟩
  | some y =>
    refine ⟨(h.2 y hr).1, fun err1 he => ?_⟩
    cases he
    exact (h.2 _ hr).2 err1 rfl

theorem runEntry_outcome (env : Env) (c : Collector) (st : State) (page : Int) :
    listedPages (runEntry env c st page).2.trace = listedPages st.trace ++ [page] ∧
    (∀ err, (runEntry env c st page).1 = some (.error err) →
      (err = .sentinel ∧
        (runEntry env c st page).2.trace.getLast? = some (.listEntries page (some []))) ∨
      Failure env c err (runEntry env c st page).2.trace) := by
  rcases runEntry_cases env c st page with ⟨cause, hc, hr⟩ | ⟨-, hr⟩ | ⟨e, es, -, hr⟩
  · rw [hr]
    refine ⟨by simp [listedPages_append, listedPages], fun err he => ?_⟩
    cases he
    exact Or.inr ⟨st.trace, .listEntries page none, cause, rfl, rfl, rfl, listEntries_error hc⟩
  · rw [hr]
    refine ⟨by simp [listedPages_append, listedPages], fun err he => ?_⟩
    cases he
    exact Or.inl ⟨rfl, by simp⟩
  · rw [hr]
    have h := entryLoop_outcome env c (e :: es)
      ⟨st.files, st.trace ++ [.listEntries page (some (e :: es))]⟩
    exact ⟨h.1.trans (by simp [listedPages_append, listedPages]), fun err he => Or.inr (h.2 err he)⟩

theorem Failure.is_not_sentinel {env : Env} {c : Collector} {err : GoError} {tr : List Event}
    (h : Failure env c err tr) : err.isNoMoreItems = false := by
  obtain ⟨pre, e, cause, -, -, rfl, hc⟩ := h
  simpa [GoError.isNoMoreItems] using hc.is_not_end

theorem Failure.last_failed {env : Env} {c : Collector} {err : GoError} {tr : List Event}
    (h : Failure env c err tr) : ∃ e, tr.getLast? = some e ∧ e.failed = true := by
  obtain ⟨pre, e, cause, rfl, hf, -, -⟩ := h
  exact ⟨e, by simp, hf⟩

/-- How `Run` ends when it returns: with `nil` right after a `listEntries` call that found no
entries, or with the error of a failed call, which is the last call, under the number of the
last page listed. -/
theorem RunFrom_outcome (env : Env) (c : Collector) (fuel : Nat) :
    ∀ (page : Int) (st : State),
      ((RunFrom env c fuel page st).1 = .returned none →
        ∃ p, (RunFrom env c fuel page st).2.trace.getLast? = some (.listEntries p (some []))) ∧
      (∀ err, (RunFrom env c fuel page st).1 = .returned (some err) →
        ∃ p inner, err = .wrapf ("failed run entry page " ++ toString p) inner ∧
          Failure env c inner (RunFrom env c fuel page st).2.trace ∧
          (listedPages (RunFrom env c fuel page st).2.trace).getLast? = some p) := by
  induction fuel with
  | zero =>
    intro page st
    exact ⟨(fun h => by cases h), fun err h => by cases h⟩
  | succ n ih =>
    intro page st
    have hre := runEntry_outcome env c st page
    rcases RunFrom_succ env c n page st with ⟨h0, hr⟩ | ⟨err, h0, hr⟩ | ⟨h0, hr⟩
    · rw [hr]
      exact ih _ _
    · rw [hr]
      rcases hre.2 err h0 with ⟨rfl, hl⟩ | hf
      · refine ⟨fun _ => ⟨page, hl⟩, fun err1 h1 => ?_⟩
        simp [GoError.isNoMoreItems] at h1
      · have hn := hf.is_not_sentinel
        refine ⟨fun h1 => ?_, fun err1 h1 => ?_⟩
        · simp [hn] at h1
        · simp only [hn] at h1
          cases h1
          exact ⟨page, err, rfl, hf, by rw [hre.1]; simp⟩
    · rw [hr]
      exact ⟨(fun h => by cases h), fun err h => by cases h⟩
/-! ## Invariants of a run -/

theorem processEntry_inv (env : Env) (c : Collector) (I X : State → Prop)
    (hIX : ∀ st, I st → X st)
    (hlog : ∀ st e, e.isQuery = true → I st → I ⟨st.files, st.trace ++ [e]⟩)
    (hstep : ∀ st mid, I st →
      ((processMatch env c st mid).1 = none → I (processMatch env c st mid).2) ∧
      (∀ err, (processMatch env c st mid).1 = some err → X (processMatch env c st mid).2))
    (st : State) (x : Option entry) (hI : I st) :
    ((processEntry env c st x).1 = none → I (processEntry env c st x).2) ∧
    (∀ err, (processEntry env c st x).1 = some err → X (processEntry env c st x).2) := by
  cases x with
  | none =>
    rw [processEntry_nil]
    exact ⟨fun _ => hI, fun _ _ => hIX _ hI⟩
  | some e =>
    rcases processEntry_cases env c st e with ⟨cause, -, hr⟩ | ⟨s, cause, -, -, hr⟩ |
      ⟨s, mids, -, -, hr⟩
    · rw [hr]
      exact ⟨(fun h0 => by cases h0), fun _ _ => hIX _ (hlog st _ rfl hI)⟩
    · rw [hr]
      refine ⟨(fun h0 => by cases h0), fun _ _ => hIX _ ?_⟩
      have h1 := hlog _ (.listMatchIDs s.PUUID none) rfl
        (hlog st (.getSummoner e.SummonerId (some s)) rfl hI)
      simpa using h1
    · rw [hr]
      have h1 := hlog _ (.listMatchIDs s.PUUID (some mids)) rfl
        (hlog st (.getSummoner e.SummonerId (some s)) rfl hI)
      simp only [List.append_assoc, List.singleton_append] at h1
      have hl := lift_matchLoop _ I (fun _ => X)
        (forRange_inv (processMatch env c) I (fun _ => X) mids
          (fun st1 mid _ h2 => hstep st1 mid h2) _ h1)
      refine ⟨hl.1, fun x hx => ?_⟩
      obtain ⟨err, -, h2⟩ := hl.2 x hx
      exact h2

theorem runEntry_inv (env : Env) (c : Collector) (I X : State → Prop)
    (hIX : ∀ st, I st → X st)
    (hlog : ∀ st e, e.isQuery = true → I st → I ⟨st.files, st.trace ++ [e]⟩)
    (hstep : ∀ st mid, I st →
      ((processMatch env c st mid).1 = none → I (processMatch env c st mid).2) ∧
      (∀ err, (processMatch env c st mid).1 = some err → X (processMatch env c st mid).2))
    (st : State) (page : Int) (hI : I st) :
    ((runEntry env c st page).1 = none → I (runEntry env c st page).2) ∧
    (∀ err, (runEntry env c st page).1 = some err → X (runEntry env c st page).2) := by
  rcases runEntry_cases env c st page with ⟨cause, -, hr⟩ | ⟨-, hr⟩ | ⟨e, es, -, hr⟩
  · rw [hr]
    exact ⟨(fun h0 => by cases h0), fun _ _ => hIX _ (hlog st _ rfl hI)⟩
  · rw [hr]
    exact ⟨(fun h0 => by cases h0), fun _ _ => hIX _ (hlog st _ rfl hI)⟩
  · rw [hr]
    exact forRange_inv (processEntry env c) I (fun _ => X) (e :: es)
      (fun st1 x _ h2 => processEntry_inv env c I X hIX hlog hstep st1 x h2) _
      (hlog st _ rfl hI)

/-- Invariant of a run: a property `I` of the state that holds at the start, survives the
recording of a listing call and survives each iteration of the loop over match ids holds
whenever the run goes on; the property `X`, which `I` implies and which holds after an
iteration that fails, holds however far the run got. -/
theorem RunFrom_inv (env : Env) (c : Collector) (I X : State → Prop)
    (hIX : ∀ st, I st → X st)
    (hlog : ∀ st e, e.isQuery = true → I st → I ⟨st.files, st.trace ++ [e]⟩)
    (hstep : ∀ st mid, I st →
      ((processMatch env c st mid).1 = none → I (processMatch env c st mid).2) ∧
      (∀ err, (processMatch env c st mid).1 = some err → X (processMatch env c st mid).2))
    (fuel : Nat) :
    ∀ (page : Int) (st : State), I st →
      ((RunFrom env c fuel page st).1 = .running → I (RunFrom env c fuel page st).2) ∧
      X (RunFrom env c fuel page st).2 := by
  induction fuel with
  | zero =>
    intro page st hI
    exact ⟨fun _ => hI, hIX _ hI⟩
  | succ n ih =>
    intro page st hI
    have hre := runEntry_inv env c I X hIX hlog hstep st page hI
    rcases RunFrom_succ env c n page st with ⟨h0, hr⟩ | ⟨err, h0, hr⟩ | ⟨h0, hr⟩
    · rw [hr]
      exact ih _ _ (hre.1 h0)
    · rw [hr]
      refine ⟨fun h1 => ?_, hre.2 _ h0⟩
      split at h1 <;> cases h1
    · rw [hr]
      exact ⟨(fun h1 => by cases h1), hre.2 _ h0⟩

/-- Every record present before one iteration of the loop over match ids is present and
unchanged after it. -/
theorem processMatch_frame (env : Env) (c : Collector) (st : State) (mid : matchID)
    (path : String) (rec : Match) (h : st.files path = some rec) :
    (processMatch env c st mid).2.files path = some rec := by
  have hs := processMatch_step env c st mid
  generalize processMatch env c st mid = r at hs
  cases hs with
  | statFailed cause hc => exact h
  | present hp => exact h
  | fetchFailed ha cause hc => exact h
  | createFailed ha m cause hc => exact h
  | writeFailed ha m n cause hc =>
    have hne : path ≠ matchPath env c mid := fun he => by rw [he, ha] at h; cases h
    simpa [Function.update_noteq hne] using h
  | saved ha m hget =>
    have hne : path ≠ matchPath env c mid := fun he => by rw [he, ha] at h; cases h
    simpa [Function.update_noteq hne] using h

/-- Every record present at a point of a run is present and unchanged from then on. -/
theorem RunFrom_frame (env : Env) (c : Collector) (fuel : Nat) (page : Int) (st : State)
    (path : String) (rec : Match) (h : st.files path = some rec) :
    (RunFrom env c fuel page st).2.files path = some rec := by
  have hinv := RunFrom_inv env c (fun s => s.files path = some rec)
    (fun s => s.files path = some rec) (fun _ h1 => h1) (fun _ _ _ h1 => h1)
    (fun s mid h1 => ⟨fun _ => processMatch_frame env c s mid path rec h1,
      fun _ _ => processMatch_frame env c s mid path rec h1⟩) fuel page st h
  exact hinv.2

/-- Every record present before the processing of an entry is present and unchanged after
it. -/
theorem processEntry_frame (env : Env) (c : Collector) (st : State) (e : Option entry)
    (path : String) (rec : Match) (h : st.files path = some rec) :
    (processEntry env c st e).2.files path = some rec := by
  have hinv := processEntry_inv env c (fun s => s.files path = some rec)
    (fun s => s.files path = some rec) (fun _ h1 => h1) (fun _ _ _ h1 => h1)
    (fun s mid h1 => ⟨fun _ => processMatch_frame env c s mid path rec h1,
      fun _ _ => processMatch_frame env c s mid path rec h1⟩) st e h
  cases hr : (processEntry env c st e).1 with
  | none => exact hinv.1 hr
  | some err => exact hinv.2 err hr

/-- Every record present before the processing of a page is present and unchanged after
it. -/
theorem runEntry_frame (env : Env) (c : Collector) (st : State) (page : Int)
    (path : String) (rec : Match) (h : st.files path = some rec) :
    (runEntry env c st page).2.files path = some rec := by
  have hinv := runEntry_inv env c (fun s => s.files path = some rec)
    (fun s => s.files path = some rec) (fun _ h1 => h1) (fun _ _ _ h1 => h1)
    (fun s mid h1 => ⟨fun _ => processMatch_frame env c s mid path rec h1,
      fun _ _ => processMatch_frame env c s mid path rec h1⟩) st page h
  cases hr : (runEntry env c st page).1 with
  | none => exact hinv.1 hr
  | some err => exact hinv.2 err hr

/-! ## Consequences for a whole run -/

theorem Run_chain (env : Env) (c : Collector) (fuel : Nat) (files : String → Option Match) :
    List.Chain' (fun a b => follows a b = true) (Run env c fuel files).2.trace ∧
    ((Run env c fuel files).1 = .running ∨ (Run env c fuel files).1 = .panicked →
      Ready (Run env c fuel files).2.trace) :=
  RunFrom_chain env c fuel 1 ⟨files, []⟩ Ready.nil

theorem chain_next {tr : List Event} (pre post : List Event) (a b : Event)
    (hc : List.Chain' (fun a b => follows a b = true) tr) (h : tr = pre ++ a :: b :: post) :
    follows a b = true := by
  subst h
  exact (List.chain'_append_cons_cons.1 hc).2.1

theorem ready_not_failed {e : Event} (h : e.ready = true) : e.failed = false := by
  unfold Event.ready at h
  split at h <;> first | rfl | cases h

/-- A failed call is the last call of a run, and the run has returned its error under the
number of the last page listed. -/
theorem Run_failed_event (env : Env) (c : Collector) (fuel : Nat) (files : String → Option Match)
    (pre post : List Event) (e : Event)
    (ht : (Run env c fuel files).2.trace = pre ++ e :: post) (hf : e.failed = true) :
    post = [] ∧ ∃ page inner,
      (Run env c fuel files).1 =
        .returned (some (.wrapf ("failed run entry page " ++ toString page) inner)) ∧
      Failure env c inner (Run env c fuel files).2.trace ∧
      (listedPages (Run env c fuel files).2.trace).getLast? = some page := by
  have hch := Run_chain env c fuel files
  have hpost : post = [] := by
    cases post with
    | nil => rfl
    | cons b rest =>
      have h1 := chain_next _ _ _ _ hch.1 ht
      rw [failed_no_successor hf] at h1
      cases h1
  subst hpost
  refine ⟨rfl, ?_⟩
  have hlast : (Run env c fuel files).2.trace.getLast? = some e := by
    rw [ht]; simp
  have hout := RunFrom_outcome env c fuel 1 ⟨files, []⟩
  cases hr : (Run env c fuel files).1 with
  | running =>
    have h1 := (hch.2 (Or.inl hr)).2 e hlast
    rw [ready_not_failed h1] at hf
    cases hf
  | panicked =>
    have h1 := (hch.2 (Or.inr hr)).2 e hlast
    rw [ready_not_failed h1] at hf
    cases hf
  | returned r =>
    cases r with
    | none =>
      obtain ⟨p, hp⟩ := hout.1 hr
      have h2 : (Run env c fuel files).2.trace.getLast? = some (.listEntries p (some [])) := hp
      rw [hlast] at h2
      cases h2
      cases hf
    | some err =>
      obtain ⟨p, inner, he, hfail, hpg⟩ := hout.2 err hr
      exact ⟨p, inner, by rw [he], hfail, hpg⟩
/-! ## The first call, and what precedes a `saveMatch` call -/

theorem processMatch_extends (env : Env) (c : Collector) (st : State) (mid : matchID) :
    ∃ evs, (processMatch env c st mid).2.trace = st.trace ++ evs := by
  have hs := processMatch_step env c st mid
  generalize processMatch env c st mid = r at hs
  cases hs <;> exact ⟨_, rfl⟩

theorem RunFrom_extends (env : Env) (c : Collector) (fuel : Nat) (page : Int) (st : State) :
    ∃ evs, (RunFrom env c fuel page st).2.trace = st.trace ++ evs := by
  have hinv := RunFrom_inv env c (fun s => ∃ evs, s.trace = st.trace ++ evs)
    (fun s => ∃ evs, s.trace = st.trace ++ evs) (fun _ h1 => h1)
    (fun s e _ h1 => by
      obtain ⟨evs, h2⟩ := h1
      exact ⟨evs ++ [e], by simp [h2]⟩)
    (fun s mid h1 => by
      obtain ⟨evs, h2⟩ := h1
      obtain ⟨evs1, h3⟩ := processMatch_extends env c s mid
      exact ⟨fun _ => ⟨evs ++ evs1, by rw [h3, h2, List.append_assoc]⟩,
        fun _ _ => ⟨evs ++ evs1, by rw [h3, h2, List.append_assoc]⟩⟩)
    fuel page st ⟨[], by simp⟩
  exact hinv.2

theorem runEntry_first (env : Env) (c : Collector) (st : State) (page : Int) :
    ∃ r evs, (runEntry env c st page).2.trace = st.trace ++ .listEntries page r :: evs := by
  rcases runEntry_cases env c st page with ⟨cause, -, hr⟩ | ⟨-, hr⟩ | ⟨e, es, -, hr⟩
  · exact ⟨none, [], by rw [hr]⟩
  · exact ⟨some [], [], by rw [hr]⟩
  · rw [hr]
    let I : State → Prop := fun s =>
      ∃ evs, s.trace = st.trace ++ Event.listEntries page (some (e :: es)) :: evs
    have hlog : ∀ (s1 : State) (e1 : Event), e1.isQuery = true → I s1 →
        I ⟨s1.files, s1.trace ++ [e1]⟩ := by
      rintro s1 e1 - ⟨evs, h3⟩
      exact ⟨evs ++ [e1], by simp [h3]⟩
    have hstep : ∀ (s1 : State) (mid : matchID), I s1 →
        ((processMatch env c s1 mid).1 = none → I (processMatch env c s1 mid).2) ∧
        (∀ err, (processMatch env c s1 mid).1 = some err → I (processMatch env c s1 mid).2) := by
      rintro s1 mid ⟨evs, h3⟩
      obtain ⟨evs1, h4⟩ := processMatch_extends env c s1 mid
      exact ⟨fun _ => ⟨evs ++ evs1, by rw [h4, h3]; simp⟩,
        fun _ _ => ⟨evs ++ evs1, by rw [h4, h3]; simp⟩⟩
    have hinv := forRange_inv (processEntry env c) I (fun _ => I) (e :: es)
      (fun s x _ h1 => processEntry_inv env c I I (fun _ h2 => h2) hlog hstep s x h1)
      ⟨st.files, st.trace ++ [.listEntries page (some (e :: es))]⟩ ⟨[], by simp⟩
    cases hr1 : (forRange (processEntry env c) (e :: es)
        ⟨st.files, st.trace ++ [.listEntries page (some (e :: es))]⟩).1 with
    | none =>
      obtain ⟨evs, h⟩ := hinv.1 hr1
      exact ⟨_, evs, h⟩
    | some err =>
      obtain ⟨evs, h⟩ := hinv.2 err hr1
      exact ⟨_, evs, h⟩

/-- The history of a run is empty or starts with the `listEntries` call of page 1. -/
theorem Run_head (env : Env) (c : Collector) (fuel : Nat) (files : String → Option Match) :
    (Run env c fuel files).2.trace = [] ∨
    ∃ r evs, (Run env c fuel files).2.trace = .listEntries 1 r :: evs := by
  cases fuel with
  | zero => left; rfl
  | succ n =>
    right
    obtain ⟨r, evs, h1⟩ := runEntry_first env c ⟨files, []⟩ 1
    simp only [List.nil_append] at h1
    rcases RunFrom_succ env c n 1 ⟨files, []⟩ with ⟨-, hr⟩ | ⟨err, -, hr⟩ | ⟨-, hr⟩
    · obtain ⟨evs2, h2⟩ := RunFrom_extends env c n (1 + 1) (runEntry env c ⟨files, []⟩ 1).2
      refine ⟨r, evs ++ evs2, ?_⟩
      unfold Run
      rw [hr, h2, h1]
      simp
    · refine ⟨r, evs, ?_⟩
      unfold Run
      rw [hr]
      exact h1
    · refine ⟨r, evs, ?_⟩
      unfold Run
      rw [hr]
      exact h1

theorem follows_saveMatch {x : Event} {mid : matchID} {m : Match} {ok : Bool}
    (h : follows x (.saveMatch mid m ok) = true) : x = .getMatch mid (some m) := by
  unfold follows at h
  split at h <;> simp_all [Event.startsItem]

theorem follows_getMatch {x : Event} {mid : matchID} {r : Option Match}
    (h : follows x (.getMatch mid r) = true) : x = .matchExist mid (some false) := by
  unfold follows at h
  split at h <;> simp_all [Event.startsItem]

/-- In a run, a `saveMatch` call comes directly after the `getMatch` call that returned the
record it stores, which comes directly after a `matchExist` call that reported the id as
absent. -/
theorem Run_before_save (env : Env) (c : Collector) (fuel : Nat)
    (files : String → Option Match) (pre post : List Event) (mid : matchID) (m : Match)
    (ok : Bool) (h : (Run env c fuel files).2.trace = pre ++ .saveMatch mid m ok :: post) :
    ∃ pre1, pre = pre1 ++ [.matchExist mid (some false), .getMatch mid (some m)] := by
  have hch := (Run_chain env c fuel files).1
  have hhead := Run_head env c fuel files
  rcases List.eq_nil_or_concat pre with rfl | ⟨pre2, x, rfl⟩
  · rcases hhead with h0 | ⟨r, evs, h0⟩
    · rw [h0] at h; cases h
    · rw [h0] at h; cases h
  rw [List.concat_eq_append] at h ⊢
  have hx1 : follows x (.saveMatch mid m ok) = true :=
    chain_next pre2 post _ _ hch (by rw [h]; simp)
  have hx : x = .getMatch mid (some m) := follows_saveMatch hx1
  subst hx
  rcases List.eq_nil_or_concat pre2 with rfl | ⟨pre3, y, rfl⟩
  · rcases hhead with h0 | ⟨r, evs, h0⟩
    · rw [h0] at h; cases h
    · rw [h0] at h; cases h
  rw [List.concat_eq_append] at h ⊢
  have hy1 : follows y (.getMatch mid (some m)) = true :=
    chain_next pre3 (.saveMatch mid m ok :: post) _ _ hch (by rw [h]; simp)
  have hy : y = .matchExist mid (some false) := follows_getMatch hy1
  subst hy
  exact ⟨pre3, by simp⟩

theorem saveMatch_frame (env : Env) (c : Collector) (st : State) (mid : matchID) (m : Match)
    (path : String) (hne : path ≠ matchPath env c mid) :
    (saveMatch env c st mid m).2.files path = st.files path := by
  rcases saveMatch_cases env c st mid m with ⟨msg, -, hs⟩ | ⟨n, msg, -, -, hs⟩ | ⟨-, -, hs⟩
  · rw [hs]
  · rw [hs]; simp [Function.update_noteq hne]
  · rw [hs]; simp [Function.update_noteq hne]

/-! ## Counting the fetches of an id -/

theorem fetchCount_append (mid : matchID) (a b : List Event) :
    fetchCount mid (a ++ b) = fetchCount mid a + fetchCount mid b := by
  simp [fetchCount, List.countP_append]

theorem saveCount_append (mid : matchID) (a b : List Event) :
    saveCount mid (a ++ b) = saveCount mid a + saveCount mid b := by
  simp [saveCount, List.countP_append]

theorem fetchCount_query (mid : matchID) (e : Event) (h : e.isQuery = true) :
    fetchCount mid [e] = 0 ∧ saveCount mid [e] = 0 := by
  cases e <;> simp_all [fetchCount, saveCount, Event.isQuery, Event.isGetMatch, Event.isSaveMatch]

theorem count_exist (mid mid1 : matchID) (r : Option Bool) :
    fetchCount mid [Event.matchExist mid1 r] = 0 ∧
    saveCount mid [Event.matchExist mid1 r] = 0 := by
  simp [fetchCount, saveCount, Event.isGetMatch, Event.isSaveMatch]

theorem count_fetch (mid mid1 : matchID) (r : Option Match) :
    fetchCount mid [Event.matchExist mid1 (some false), Event.getMatch mid1 r] =
      (if mid1 = mid then 1 else 0) ∧
    saveCount mid [Event.matchExist mid1 (some false), Event.getMatch mid1 r] = 0 := by
  by_cases hm : mid1 = mid <;>
    simp [fetchCount, saveCount, Event.isGetMatch, Event.isSaveMatch, hm]

theorem count_save (mid mid1 : matchID) (r : Option Match) (m : Match) (ok : Bool) :
    fetchCount mid [Event.matchExist mid1 (some false), Event.getMatch mid1 r,
      Event.saveMatch mid1 m ok] = (if mid1 = mid then 1 else 0) ∧
    saveCount mid [Event.matchExist mid1 (some false), Event.getMatch mid1 r,
      Event.saveMatch mid1 m ok] = (if mid1 = mid then 1 else 0) := by
  by_cases hm : mid1 = mid <;>
    simp [fetchCount, saveCount, Event.isGetMatch, Event.isSaveMatch, hm]

theorem count_absent (env : Env) (c : Collector) (files : String → Option Match)
    (mid : matchID) (st : State) (mid1 : matchID) (hI : CountInv env c files mid st)
    (ha : st.files (matchPath env c mid1) = none) (k : Nat)
    (hk : k = if mid1 = mid then 1 else 0) :
    ((files (matchPath env c mid)).isSome = true → fetchCount mid st.trace + k = 0 ∧
      saveCount mid st.trace + k = 0) ∧
    fetchCount mid st.trace + k ≤ 1 ∧ saveCount mid st.trace + k ≤ 1 := by
  obtain ⟨h1, h2, h3, h4⟩ := hI
  by_cases hm : mid1 = mid
  · subst hm
    have habs : (st.files (matchPath env c mid1)).isSome = false := by simp [ha]
    have h0 := h2 habs
    refine ⟨fun h => ?_, ?_, ?_⟩
    · rw [(h1 h).1] at habs; cases habs
    · rw [h0.1, hk]; simp
    · rw [h0.2, hk]; simp
  · rw [if_neg hm] at hk
    subst hk
    exact ⟨fun h => (h1 h).2, h3, h4⟩

theorem processMatch_count (env : Env) (c : Collector) (files : String → Option Match)
    (mid : matchID) (st : State) (mid1 : matchID) (hI : CountInv env c files mid st) :
    ((processMatch env c st mid1).1 = none →
      CountInv env c files mid (processMatch env c st mid1).2) ∧
    (∀ err, (processMatch env c st mid1).1 = some err →
      CountExit env c files mid (processMatch env c st mid1).2) := by
  have hI0 := hI
  obtain ⟨h1, h2, h3, h4⟩ := hI
  have hs := processMatch_step env c st mid1
  generalize processMatch env c st mid1 = r at hs
  cases hs with
  | statFailed cause hc =>
    refine ⟨(fun h0 => by cases h0), fun _ _ => ?_⟩
    simp only [CountExit, fetchCount_append, saveCount_append, (count_exist mid mid1 none).1,
      (count_exist mid mid1 none).2, Nat.add_zero]
    exact ⟨fun h => (h1 h).2, h3, h4⟩
  | present hp =>
    refine ⟨fun _ => ?_, fun _ h0 => by cases h0⟩
    simp only [CountInv, fetchCount_append, saveCount_append,
      (count_exist mid mid1 (some true)).1, (count_exist mid mid1 (some true)).2, Nat.add_zero]
    exact ⟨h1, h2, h3, h4⟩
  | fetchFailed ha cause hc =>
    refine ⟨(fun h0 => by cases h0), fun _ _ => ?_⟩
    have hk := count_absent env c files mid st mid1 hI0 ha _ rfl
    simp only [CountExit, fetchCount_append, saveCount_append, (count_fetch mid mid1 none).1,
      (count_fetch mid mid1 none).2, Nat.add_zero]
    exact ⟨fun h => ⟨(hk.1 h).1, (h1 h).2.2⟩, hk.2.1, h4⟩
  | createFailed ha m cause hc =>
    refine ⟨(fun h0 => by cases h0), fun _ _ => ?_⟩
    have hk := count_absent env c files mid st mid1 hI0 ha _ rfl
    simp only [CountExit, fetchCount_append, saveCount_append,
      (count_save mid mid1 (some m) m false).1, (count_save mid mid1 (some m) m false).2]
    exact hk
  | writeFailed ha m n cause hc =>
    refine ⟨(fun h0 => by cases h0), fun _ _ => ?_⟩
    have hk := count_absent env c files mid st mid1 hI0 ha _ rfl
    simp only [CountExit, fetchCount_append, saveCount_append,
      (count_save mid mid1 (some m) m false).1, (count_save mid mid1 (some m) m false).2]
    exact hk
  | saved ha m hget =>
    refine ⟨fun _ => ?_, fun _ h0 => by cases h0⟩
    have hk := count_absent env c files mid st mid1 hI0 ha _ rfl
    simp only [CountInv, fetchCount_append, saveCount_append,
      (count_save mid mid1 (some m) m true).1, (count_save mid mid1 (some m) m true).2]
    refine ⟨fun h => ⟨?_, hk.1 h⟩, fun h => ?_, hk.2⟩
    · by_cases hp : matchPath env c mid = matchPath env c mid1
      · rw [hp]; simp
      · rw [Function.update_noteq hp]; exact (h1 h).1
    · by_cases hp : matchPath env c mid = matchPath env c mid1
      · rw [hp] at h; simp at h
      · rw [Function.update_noteq hp] at h
        have hm : mid1 ≠ mid := fun he => hp (by rw [he])
        simp only [if_neg hm, Nat.add_zero]
        exact h2 h

theorem Run_count (env : Env) (c : Collector) (fuel : Nat) (files : String → Option Match)
    (mid : matchID) : CountExit env c files mid (Run env c fuel files).2 := by
  have hIX : ∀ s, CountInv env c files mid s → CountExit env c files mid s :=
    fun s h => ⟨fun h0 => (h.1 h0).2, h.2.2⟩
  have hinv := RunFrom_inv env c (CountInv env c files mid) (CountExit env c files mid) hIX
    (fun s e he h => by
      obtain ⟨h1, h2, h3, h4⟩ := h
      have hq := fetchCount_query mid e he
      simp only [CountInv, fetchCount_append, saveCount_append, hq.1, hq.2, Nat.add_zero]
      exact ⟨h1, h2, h3, h4⟩)
    (fun s mid1 h => processMatch_count env c files mid s mid1 h) fuel 1 ⟨files, []⟩
    ⟨fun h => ⟨h, rfl, rfl⟩, fun _ => ⟨rfl, rfl⟩, Nat.zero_le _, Nat.zero_le _⟩
  exact hinv.2

/-! ## The listed ids of a successful run -/

theorem listedIDs_append (a b : List Event) :
    listedIDs (a ++ b) = listedIDs a ++ listedIDs b := by
  simp [listedIDs, List.flatMap_append]

theorem processMatch_present_mono (env : Env) (c : Collector) (st : State) (mid : matchID)
    (path : String) (h : (st.files path).isSome = true) :
    ((processMatch env c st mid).2.files path).isSome = true := by
  cases hf : st.files path with
  | none => rw [hf] at h; cases h
  | some rec => rw [processMatch_frame env c st mid path rec hf]; rfl

theorem processMatch_listed (env : Env) (c : Collector) (st : State) (mid : matchID) :
    listedIDs (processMatch env c st mid).2.trace = listedIDs st.trace ∧
    ((processMatch env c st mid).1 = none →
      ((processMatch env c st mid).2.files (matchPath env c mid)).isSome = true) := by
  have hs := processMatch_step env c st mid
  generalize processMatch env c st mid = r at hs
  cases hs with
  | statFailed cause hc =>
    exact ⟨by simp [listedIDs_append, listedIDs], fun h0 => by cases h0⟩
  | present hp => exact ⟨by simp [listedIDs_append, listedIDs], fun _ => hp⟩
  | fetchFailed ha cause hc =>
    exact ⟨by simp [listedIDs_append, listedIDs], fun h0 => by cases h0⟩
  | createFailed ha m cause hc =>
    exact ⟨by simp [listedIDs_append, listedIDs], fun h0 => by cases h0⟩
  | writeFailed ha m n cause hc =>
    exact ⟨by simp [listedIDs_append, listedIDs], fun h0 => by cases h0⟩
  | saved ha m hget => exact ⟨by simp [listedIDs_append, listedIDs], fun _ => by simp⟩

/-- After a loop over match ids that ended without error, the file of each of the ids
exists; the loop adds no listing to the history and removes no file. -/
theorem matchLoop_present (env : Env) (c : Collector) (mids : List matchID) :
    ∀ st : State,
      listedIDs (forRange (processMatch env c) mids st).2.trace = listedIDs st.trace ∧
      (∀ path, (st.files path).isSome = true →
        ((forRange (processMatch env c) mids st).2.files path).isSome = true) ∧
      ((forRange (processMatch env c) mids st).1 = none → ∀ mid ∈ mids,
        ((forRange (processMatch env c) mids st).2.files (matchPath env c mid)).isSome = true) := by
  induction mids with
  | nil =>
    intro st
    simp [forRange_nil]
  | cons mid rest ih =>
    intro st
    have hl := processMatch_listed env c st mid
    cases hr : (processMatch env c st mid).1 with
    | some err =>
      rw [forRange_cons_error rest hr]
      refine ⟨hl.1, fun path hp => processMatch_present_mono env c st mid path hp, fun h0 => ?_⟩
      rw [hr] at h0; cases h0
    | none =>
      rw [forRange_cons_ok rest hr]
      obtain ⟨i1, i2, i3⟩ := ih (processMatch env c st mid).2
      refine ⟨i1.trans hl.1,
        fun path hp => i2 path (processMatch_present_mono env c st mid path hp),
        fun h0 mid1 hm => ?_⟩
      rcases List.mem_cons.1 hm with rfl | hm1
      · exact i2 _ (hl.2 hr)
      · exact i3 h0 mid1 hm1

theorem processEntry_listed (env : Env) (c : Collector) (st : State) (x : Option entry)
    (hJ : ListedPresent env c st) :
    ((processEntry env c st x).1 = none → ListedPresent env c (processEntry env c st x).2) := by
  cases x with
  | none => rw [processEntry_nil]; intro h0; cases h0
  | some e =>
  rcases processEntry_cases env c st e with ⟨cause, -, hr⟩ | ⟨s, cause, -, -, hr⟩ |
    ⟨s, mids, -, -, hr⟩
  · rw [hr]; intro h0; cases h0
  · rw [hr]; intro h0; cases h0
  · rw [hr]
    intro h0
    replace h0 : (forRange (processMatch env c) mids
        ⟨st.files, st.trace ++
          [.getSummoner e.SummonerId (some s), .listMatchIDs s.PUUID (some mids)]⟩).1 = none := by
      simpa using h0
    obtain ⟨i1, i2, i3⟩ := matchLoop_present env c mids
      ⟨st.files, st.trace ++
        [.getSummoner e.SummonerId (some s), .listMatchIDs s.PUUID (some mids)]⟩
    intro mid hmid
    rw [i1] at hmid
    simp only [listedIDs_append] at hmid
    rcases List.mem_append.1 hmid with h1 | h1
    · exact i2 _ (hJ mid h1)
    · have h2 : mid ∈ mids := by simpa [listedIDs] using h1
      exact i3 h0 mid h2

theorem runEntry_listed (env : Env) (c : Collector) (st : State) (page : Int)
    (hJ : ListedPresent env c st) :
    ((runEntry env c st page).1 = none → ListedPresent env c (runEntry env c st page).2) ∧
    ((runEntry env c st page).1 = some (.error .sentinel) →
      ListedPresent env c (runEntry env c st page).2) := by
  rcases runEntry_cases env c st page with ⟨cause, hc, hr⟩ | ⟨-, hr⟩ | ⟨e, es, -, hr⟩
  · rw [hr]
    exact ⟨(fun h0 => by cases h0), fun h0 => by cases h0⟩
  · rw [hr]
    have h1 : ListedPresent env c ⟨st.files, st.trace ++ [.listEntries page (some [])]⟩ := by
      intro mid hmid
      have : mid ∈ listedIDs st.trace := by simpa [listedIDs_append, listedIDs] using hmid
      exact hJ mid this
    exact ⟨fun _ => h1, fun _ => h1⟩
  · rw [hr]
    have h1 : ListedPresent env c
        ⟨st.files, st.trace ++ [.listEntries page (some (e :: es))]⟩ := by
      intro mid hmid
      have : mid ∈ listedIDs st.trace := by simpa [listedIDs_append, listedIDs] using hmid
      exact hJ mid this
    have hinv := forRange_inv (processEntry env c) (ListedPresent env c)
      (fun err _ => err ≠ .error .sentinel) (e :: es)
      (fun s x _ h2 => ⟨processEntry_listed env c s x h2, fun err he => by
        intro h3
        subst h3
        have hf := (processEntry_outcome env c s x).2 _ he
        have := hf.is_not_sentinel
        simp [GoError.isNoMoreItems] at this⟩) _ h1
    exact ⟨hinv.1, fun h0 => absurd rfl (hinv.2 _ h0)⟩

theorem RunFrom_listed (env : Env) (c : Collector) (fuel : Nat) :
    ∀ (page : Int) (st : State), ListedPresent env c st →
      ((RunFrom env c fuel page st).1 = .running →
        ListedPresent env c (RunFrom env c fuel page st).2) ∧
      ((RunFrom env c fuel page st).1 = .returned none →
        ListedPresent env c (RunFrom env c fuel page st).2) := by
  induction fuel with
  | zero =>
    intro page st hJ
    exact ⟨fun _ => hJ, fun h => by cases h⟩
  | succ n ih =>
    intro page st hJ
    have hre := runEntry_listed env c st page hJ
    rcases RunFrom_succ env c n page st with ⟨h0, hr⟩ | ⟨err, h0, hr⟩ | ⟨h0, hr⟩
    · rw [hr]
      exact ih _ _ (hre.1 h0)
    · rw [hr]
      refine ⟨fun h1 => ?_, fun h1 => ?_⟩
      · split at h1 <;> cases h1
      · rcases (runEntry_outcome env c st page).2 err h0 with ⟨rfl, -⟩ | hf
        · exact hre.2 h0
        · simp [hf.is_not_sentinel] at h1
    · rw [hr]
      exact ⟨(fun h1 => by cases h1), fun h1 => by cases h1⟩

theorem mem_listedIDs {tr : List Event} {mid : matchID} :
    mid ∈ listedIDs tr ↔ ∃ puuid mids, Event.listMatchIDs puuid (some mids) ∈ tr ∧ mid ∈ mids := by
  unfold listedIDs
  rw [List.mem_flatMap]
  constructor
  · rintro ⟨e, he, hm⟩
    split at hm
    · exact ⟨_, _, he, hm⟩
    · cases hm
  · rintro ⟨puuid, mids, he, hm⟩
    exact ⟨_, he, hm⟩

/-! ## What is stored is what was fetched -/

theorem processMatch_saved (env : Env) (c : Collector) (st : State) (mid1 : matchID)
    (hS : SavedStored env c st) : SavedStored env c (processMatch env c st mid1).2 := by
  have hfr := processMatch_frame env c st mid1
  have hs := processMatch_step env c st mid1
  generalize processMatch env c st mid1 = r at hs hfr
  cases hs with
  | statFailed cause hc =>
    intro mid m hm
    have : Event.saveMatch mid m true ∈ st.trace := by simpa using hm
    exact hS mid m this
  | present hp =>
    intro mid m hm
    have : Event.saveMatch mid m true ∈ st.trace := by simpa using hm
    exact hS mid m this
  | fetchFailed ha cause hc =>
    intro mid m hm
    have : Event.saveMatch mid m true ∈ st.trace := by simpa using hm
    exact hS mid m this
  | createFailed ha m1 cause hc =>
    intro mid m hm
    have : Event.saveMatch mid m true ∈ st.trace := by simpa using hm
    exact hS mid m this
  | writeFailed ha m1 n cause hc =>
    intro mid m hm
    have : Event.saveMatch mid m true ∈ st.trace := by simpa using hm
    exact hfr _ _ (hS mid m this)
  | saved ha m1 hget =>
    intro mid m hm
    have : Event.saveMatch mid m true ∈ st.trace ∨ (mid = mid1 ∧ m = m1) := by
      simpa using hm
    rcases this with h1 | ⟨rfl, rfl⟩
    · exact hfr _ _ (hS mid m h1)
    · simp

theorem Run_saved (env : Env) (c : Collector) (fuel : Nat) (files : String → Option Match) :
    SavedStored env c (Run env c fuel files).2 := by
  have hinv := RunFrom_inv env c (SavedStored env c) (SavedStored env c) (fun _ h => h)
    (fun s e he h mid m hm => by
      have : Event.saveMatch mid m true ∈ s.trace ∨ Event.saveMatch mid m true = e := by
        simpa using hm
      rcases this with h1 | h1
      · exact h mid m h1
      · subst h1; cases he)
    (fun s mid1 h => ⟨fun _ => processMatch_saved env c s mid1 h,
      fun _ _ => processMatch_saved env c s mid1 h⟩) fuel 1 ⟨files, []⟩
    (fun mid m hm => by cases hm)
  exact hinv.2

theorem CallsLogged.extend {env : Env} {c : Collector} {files files1 : String → Option Match}
    {tr evs : List Event} (h : CallsLogged env c ⟨files, tr⟩)
    (hnew : ∀ (k : Nat) (mid : matchID) (m : Match), evs[k]? = some (.getMatch mid (some m)) →
      getMatch env c (tr ++ evs.take k) mid = .ok m) :
    CallsLogged env c ⟨files1, tr ++ evs⟩ := by
  intro i mid m hi
  simp only at hi ⊢
  by_cases hlt : i < tr.length
  · rw [List.getElem?_append_left hlt] at hi
    rw [List.take_append_of_le_length (Nat.le_of_lt hlt)]
    exact h i mid m hi
  · have hle : tr.length ≤ i := Nat.le_of_not_lt hlt
    rw [List.getElem?_append_right hle] at hi
    have h1 := hnew (i - tr.length) mid m hi
    have h2 : List.take i (tr ++ evs) = tr ++ List.take (i - tr.length) evs := by
      rw [List.take_append_eq_append_take, List.take_of_length_le hle]
    rw [h2]
    exact h1

theorem processMatch_logged (env : Env) (c : Collector) (st : State) (mid1 : matchID)
    (hG : CallsLogged env c st) : CallsLogged env c (processMatch env c st mid1).2 := by
  have hs := processMatch_step env c st mid1
  generalize processMatch env c st mid1 = r at hs
  cases hs with
  | statFailed cause hc =>
    refine CallsLogged.extend hG (fun k mid m hk => ?_)
    match k, hk with
    | 0, hk => simp at hk
    | k + 1, hk => simp at hk
  | present hp =>
    refine CallsLogged.extend hG (fun k mid m hk => ?_)
    match k, hk with
    | 0, hk => simp at hk
    | k + 1, hk => simp at hk
  | fetchFailed ha cause hc =>
    refine CallsLogged.extend hG (fun k mid m hk => ?_)
    match k, hk with
    | 0, hk => simp at hk
    | 1, hk => simp at hk
    | k + 2, hk => simp at hk
  | createFailed ha m1 cause hc hget =>
    refine CallsLogged.extend hG (fun k mid m hk => ?_)
    match k, hk with
    | 0, hk => simp at hk
    | 1, hk =>
      simp at hk
      obtain ⟨rfl, rfl⟩ := hk
      simpa using hget
    | 2, hk => simp at hk
    | k + 3, hk => simp at hk
  | writeFailed ha m1 n cause hc hget =>
    refine CallsLogged.extend hG (fun k mid m hk => ?_)
    match k, hk with
    | 0, hk => simp at hk
    | 1, hk =>
      simp at hk
      obtain ⟨rfl, rfl⟩ := hk
      simpa using hget
    | 2, hk => simp at hk
    | k + 3, hk => simp at hk
  | saved ha m1 hget =>
    refine CallsLogged.extend hG (fun k mid m hk => ?_)
    match k, hk with
    | 0, hk => simp at hk
    | 1, hk =>
      simp at hk
      obtain ⟨rfl, rfl⟩ := hk
      simpa using hget
    | 2, hk => simp at hk
    | k + 3, hk => simp at hk

theorem Run_logged (env : Env) (c : Collector) (fuel : Nat) (files : String → Option Match) :
    CallsLogged env c (Run env c fuel files).2 := by
  have hinv := RunFrom_inv env c (CallsLogged env c) (CallsLogged env c) (fun _ h => h)
    (fun s e he h => CallsLogged.extend h (fun k mid m hk => by
      match k, hk with
      | 0, hk =>
        simp at hk
        subst hk
        cases he
      | k + 1, hk => simp at hk))
    (fun s mid1 h => ⟨fun _ => processMatch_logged env c s mid1 h,
      fun _ _ => processMatch_logged env c s mid1 h⟩) fuel 1 ⟨files, []⟩
    (fun i mid m hi => by simp at hi)
  exact hinv.2

theorem take_succ_append (pre : List Event) (a : Event) (rest : List Event) :
    List.take (pre.length + 1) (pre ++ a :: rest) = pre ++ [a] := by
  induction pre with
  | nil => simp
  | cons x xs ih => simpa using ih

theorem getElem_succ_append (pre : List Event) (a b : Event) (rest : List Event) :
    (pre ++ a :: b :: rest)[pre.length + 1]? = some b := by
  induction pre with
  | nil => simp
  | cons x xs ih => simpa using ih

theorem follows_absent {x : Event} {mid : matchID}
    (h : follows (.matchExist mid (some false)) x = true) : ∃ r, x = .getMatch mid r := by
  cases x <;> simp_all [follows]

theorem follows_fetched {x : Event} {mid : matchID} {m : Match}
    (h : follows (.getMatch mid (some m)) x = true) : ∃ ok, x = .saveMatch mid m ok := by
  cases x <;> simp_all [follows]

/-- In a run that returned nil no call failed. -/
theorem Run_nil_no_failure (env : Env) (c : Collector) (fuel : Nat)
    (files : String → Option Match) (h : (Run env c fuel files).1 = .returned none)
    (pre post : List Event) (e : Event)
    (ht : (Run env c fuel files).2.trace = pre ++ e :: post) : e.failed = false := by
  cases hf : e.failed with
  | false => rfl
  | true =>
    obtain ⟨-, page, inner, hr, -, -⟩ := Run_failed_event env c fuel files pre post e ht hf
    rw [h] at hr
    cases hr

/-! ## The pages of a run -/

theorem pages_from (p : Int) (n : Nat) :
    p :: (List.range (n + 1)).map (fun i : Nat => p + 1 + (i : Int)) =
      (List.range (n + 2)).map (fun i : Nat => p + (i : Int)) := by
  rw [List.range_succ_eq_map (n + 1)]
  simp only [List.map_cons, List.map_map]
  congr 1
  · simp
  · apply List.map_congr_left
    intro i _
    simp only [Function.comp]
    push_cast
    ring

theorem Failure.has_failed {env : Env} {c : Collector} {err : GoError} {tr : List Event}
    (h : Failure env c err tr) : ∃ e ∈ tr, e.failed = true := by
  obtain ⟨pre, e, cause, rfl, hf, -, -⟩ := h
  exact ⟨e, by simp, hf⟩

/-- Processing an entry that is not nil does not panic. -/
theorem processEntry_some_no_panic (env : Env) (c : Collector) (st : State) (e : entry) :
    (processEntry env c st (some e)).1 ≠ some .panic := by
  rcases processEntry_cases env c st e with ⟨cause, -, hr⟩ | ⟨s, cause, -, -, hr⟩ |
    ⟨s, mids, -, -, hr⟩
  · rw [hr]; intro h; cases h
  · rw [hr]; intro h; cases h
  · rw [hr]
    generalize (forRange (processMatch env c) mids
      ⟨st.files, st.trace ++
        [.getSummoner e.SummonerId (some s), .listMatchIDs s.PUUID (some mids)]⟩).1 = r
    cases r <;> intro h <;> cases h

/-- The loop over entries none of which is nil does not panic. -/
theorem entryLoop_no_panic (env : Env) (c : Collector) (es : List (Option entry))
    (hes : ∀ x ∈ es, x ≠ none) (st : State) :
    (forRange (processEntry env c) es st).1 ≠ some .panic := by
  have h := forRange_inv (processEntry env c) (fun _ => True) (fun x _ => x ≠ .panic) es
    (fun s x hx _ => ⟨fun _ => trivial, fun err he => by
      cases x with
      | none => exact absurd rfl (hes _ hx)
      | some e =>
        intro h1
        subst h1
        exact processEntry_some_no_panic env c s e he⟩) st trivial
  intro h1
  exact h.2 _ h1 rfl

/-- A page whose entries are not nil is processed without a panic. -/
theorem runEntry_no_panic (env : Env) (c : Collector) (st : State) (page : Int)
    (h : ∀ es, listEntries env c st.trace page = .ok es → ∀ x ∈ es, x ≠ none) :
    (runEntry env c st page).1 ≠ some .panic := by
  rcases runEntry_cases env c st page with ⟨cause, -, hr⟩ | ⟨-, hr⟩ | ⟨e, es, hl, hr⟩
  · rw [hr]; intro h1; cases h1
  · rw [hr]; intro h1; cases h1
  · rw [hr]
    exact entryLoop_no_panic env c (e :: es) (h _ hl) _

theorem RunFrom_keeps (env : Env) (c : Collector) (fuel : Nat) (page : Int) (st : State)
    (e : Event) (he : e ∈ st.trace) : e ∈ (RunFrom env c fuel page st).2.trace := by
  obtain ⟨evs, h⟩ := RunFrom_extends env c fuel page st
  rw [h]
  exact List.mem_append_left _ he

/-- The run from page `p`, when the pages `p` to `p + n - 1` have entries and page `p + n`
has none: it returns within `n + 1` pages, and if no call fails it returns nil after listing
the pages `p` to `p + n`. -/
theorem RunFrom_pages (env : Env) (c : Collector) (k : Int)
    (hne : ∀ (h : List Event) (p : Int), 1 ≤ p → p < k →
      ∃ es, listEntries env c h p = .ok es ∧ es ≠ [] ∧ ∀ x ∈ es, x ≠ none)
    (hend : ∀ h : List Event, listEntries env c h k = .ok []) (n : Nat) :
    ∀ (p : Int) (st : State) (fuel : Nat), 1 ≤ p → p + n = k → n < fuel →
      (∃ r, (RunFrom env c fuel p st).1 = .returned r) ∧
      ((∀ e ∈ (RunFrom env c fuel p st).2.trace, e.failed = false) →
        (RunFrom env c fuel p st).1 = .returned none ∧
        listedPages (RunFrom env c fuel p st).2.trace =
          listedPages st.trace ++ (List.range (n + 1)).map (fun i : Nat => p + (i : Int))) := by
  induction n with
  | zero =>
    intro p st fuel hp hpk hfuel
    obtain ⟨f, rfl⟩ : ∃ f, fuel = f + 1 := ⟨fuel - 1, by omega⟩
    have hpk1 : p = k := by simpa using hpk
    subst hpk1
    rcases runEntry_cases env c st p with ⟨cause, hc, hr⟩ | ⟨-, hr⟩ | ⟨e, es, hl, hr⟩
    · exfalso
      have h1 := hend st.trace
      unfold runEntry at hr
      rw [h1] at hr
      simp [State.log] at hr
    · rcases RunFrom_succ env c f p st with ⟨h0, -⟩ | ⟨err, h0, hrf⟩ | ⟨h0, -⟩
      · rw [hr] at h0; cases h0
      · rw [hr] at h0
        cases h0
        rw [hrf, hr]
        simp [GoError.isNoMoreItems, listedPages_append, listedPages, List.range_succ]
      · rw [hr] at h0; cases h0
    · rw [hend st.trace] at hl
      cases hl
  | succ n ih =>
    intro p st fuel hp hpk hfuel
    obtain ⟨f, rfl⟩ : ∃ f, fuel = f + 1 := ⟨fuel - 1, by omega⟩
    have hlt : p < k := by push_cast at hpk; omega
    obtain ⟨es0, hes, hnil, hnn⟩ := hne st.trace p hp hlt
    have hout := runEntry_outcome env c st p
    have hnp := runEntry_no_panic env c st p (fun es1 h1 => by
      rw [hes] at h1
      cases h1
      exact hnn)
    rcases RunFrom_succ env c f p st with ⟨h0, hrf⟩ | ⟨err, h0, hrf⟩ | ⟨h0, -⟩
    · rw [hrf]
      have h1 := ih (p + 1) (runEntry env c st p).2 f (by omega) (by push_cast at hpk ⊢; omega)
        (by omega)
      refine ⟨h1.1, fun hall => ?_⟩
      obtain ⟨h2, h3⟩ := h1.2 hall
      refine ⟨h2, ?_⟩
      rw [h3, hout.1, List.append_assoc, List.singleton_append, pages_from]
    · rw [hrf]
      refine ⟨by split <;> exact ⟨_, rfl⟩, fun hall => ?_⟩
      exfalso
      rcases hout.2 err h0 with ⟨-, hl⟩ | hf
      · rcases runEntry_cases env c st p with ⟨cause, hc, hr⟩ | ⟨hl0, hr⟩ | ⟨e, es, hl1, hr⟩
        · rw [hr] at hl; simp at hl
        · rw [hes] at hl0
          cases hl0
          exact hnil rfl
        · have h6 := entryLoop_outcome env c (e :: es)
            ⟨st.files, st.trace ++ [.listEntries p (some (e :: es))]⟩
          rw [hr] at h0
          obtain ⟨e1, he1, hf1⟩ := (h6.2 err h0).has_failed
          rw [← hr] at he1
          have := hall e1 he1
          rw [hf1] at this
          cases this
      · obtain ⟨e1, he1, hf1⟩ := hf.has_failed
        have := hall e1 he1
        rw [hf1] at this
        cases this
    · exact absurd h0 hnp
/-! ## A second run -/

theorem listEntries_unchanged {env : Env} {c : Collector} (hu : Unchanged c)
    (h1 h2 : List Event) (page : Int) :
    listEntries env c h1 page = listEntries env c h2 page := by
  unfold listEntries
  simp only [hu h1 h2]

theorem getSummoner_unchanged {env : Env} {c : Collector} (hu : Unchanged c)
    (h1 h2 : List Event) (summonerId : String) :
    getSummoner env c h1 summonerId = getSummoner env c h2 summonerId := by
  unfold getSummoner
  simp only [hu h1 h2]

theorem listMatchIDs_unchanged {env : Env} {c : Collector} (hu : Unchanged c)
    (h1 h2 : List Event) (s : summoner) :
    listMatchIDs env c h1 s = listMatchIDs env c h2 s := by
  unfold listMatchIDs
  simp only [hu h1 h2]

theorem processEntry_present_mono (env : Env) (c : Collector) (st : State) (e : Option entry)
    (path : String) (h : (st.files path).isSome = true) :
    ((processEntry env c st e).2.files path).isSome = true := by
  have hinv := processEntry_inv env c (fun s => (s.files path).isSome = true)
    (fun s => (s.files path).isSome = true) (fun _ h1 => h1) (fun _ _ _ h1 => h1)
    (fun s mid h1 => ⟨fun _ => processMatch_present_mono env c s mid path h1,
      fun _ _ => processMatch_present_mono env c s mid path h1⟩) st e h
  cases hr : (processEntry env c st e).1 with
  | none => exact hinv.1 hr
  | some err => exact hinv.2 err hr

theorem RunFrom_present_mono (env : Env) (c : Collector) (fuel : Nat) (page : Int) (st : State)
    (path : String) (h : (st.files path).isSome = true) :
    ((RunFrom env c fuel page st).2.files path).isSome = true := by
  cases hf : st.files path with
  | none => rw [hf] at h; cases h
  | some rec => rw [RunFrom_frame env c fuel page st path rec hf]; rfl

theorem processEntry_covers (env : Env) (c : Collector) (hu : Unchanged c) (st : State)
    (x : Option entry) (h : (processEntry env c st x).1 = none) :
    EntryCovered env c (processEntry env c st x).2.files x := by
  cases x with
  | none => rw [processEntry_nil] at h; cases h
  | some e =>
  rcases processEntry_cases env c st e with ⟨cause, -, hr⟩ | ⟨s, cause, -, -, hr⟩ |
    ⟨s, mids, hs, hm, hr⟩
  · rw [hr] at h; cases h
  · rw [hr] at h; cases h
  · refine ⟨e, rfl, ?_⟩
    intro s1 hs1 mids1 hm1 mid hmid
    rw [getSummoner_unchanged hu st.trace []] at hs
    rw [hs] at hs1
    cases hs1
    rw [listMatchIDs_unchanged hu _ []] at hm
    rw [hm] at hm1
    cases hm1
    rw [hr] at h ⊢
    have h0 : (forRange (processMatch env c) mids
        ⟨st.files, st.trace ++
          [.getSummoner e.SummonerId (some s), .listMatchIDs s.PUUID (some mids)]⟩).1 = none := by
      simpa using h
    exact (matchLoop_present env c mids _).2.2 h0 mid hmid

theorem EntryCovered.widen {env : Env} {c : Collector} {files files1 : String → Option Match}
    {x : Option entry} (h : EntryCovered env c files x)
    (hm : ∀ path, (files path).isSome = true → (files1 path).isSome = true) :
    EntryCovered env c files1 x := by
  obtain ⟨e, he, h1⟩ := h
  exact ⟨e, he, fun s hs mids hmids mid hmid => hm _ (h1 s hs mids hmids mid hmid)⟩

theorem entryLoop_present_mono (env : Env) (c : Collector) (es : List (Option entry))
    (st : State) (path : String) (h : (st.files path).isSome = true) :
    ((forRange (processEntry env c) es st).2.files path).isSome = true := by
  have hinv := forRange_inv (processEntry env c)
    (fun s1 => (s1.files path).isSome = true)
    (fun _ s1 => (s1.files path).isSome = true) es
    (fun s1 y _ h2 => ⟨fun _ => processEntry_present_mono env c s1 y _ h2,
      fun _ _ => processEntry_present_mono env c s1 y _ h2⟩) st h
  cases hr : (forRange (processEntry env c) es st).1 with
  | none => exact hinv.1 hr
  | some err => exact hinv.2 err hr

theorem entryLoop_covers (env : Env) (c : Collector) (hu : Unchanged c)
    (es : List (Option entry)) :
    ∀ st : State, (forRange (processEntry env c) es st).1 = none →
      ∀ x ∈ es, EntryCovered env c (forRange (processEntry env c) es st).2.files x := by
  induction es with
  | nil =>
    intro st _ x hx
    cases hx
  | cons y ys ih =>
    intro st h x hx
    cases hr : (processEntry env c st y).1 with
    | some err =>
      rw [forRange_cons_error ys hr] at h
      rw [hr] at h
      cases h
    | none =>
      rw [forRange_cons_ok ys hr] at h ⊢
      rcases List.mem_cons.1 hx with rfl | hx1
      · exact (processEntry_covers env c hu st x hr).widen
          (fun path hp => entryLoop_present_mono env c ys _ path hp)
      · exact ih _ h x hx1

theorem runEntry_covers (env : Env) (c : Collector) (hu : Unchanged c) (st : State)
    (page : Int) (h : (runEntry env c st page).1 = none) :
    Covered env c (runEntry env c st page).2.files page ∧
    ∃ e es, listEntries env c [] page = .ok (e :: es) := by
  rcases runEntry_cases env c st page with ⟨cause, -, hr⟩ | ⟨-, hr⟩ | ⟨e, es, hl, hr⟩
  · rw [hr] at h; cases h
  · rw [hr] at h; cases h
  · rw [listEntries_unchanged hu st.trace []] at hl
    refine ⟨?_, e, es, hl⟩
    intro es1 hl1 e1 he1
    rw [hl] at hl1
    cases hl1
    rw [hr] at h ⊢
    exact entryLoop_covers env c hu (e :: es) _ h e1 he1

theorem Covered.mono {env : Env} {c : Collector} {files files1 : String → Option Match}
    {page : Int} (h : Covered env c files page)
    (hm : ∀ path, (files path).isSome = true → (files1 path).isSome = true) :
    Covered env c files1 page :=
  fun es hl x hx => (h es hl x hx).widen hm

/-- A run that returned nil went through pages with entries, whose match ids all have their
file at the end, up to a page without entries. -/
theorem RunFrom_covers (env : Env) (c : Collector) (hu : Unchanged c) (fuel : Nat) :
    ∀ (page : Int) (st : State), (RunFrom env c fuel page st).1 = .returned none →
      ∃ n : Nat, n < fuel ∧ listEntries env c [] (page + n) = .ok [] ∧
        ∀ i : Nat, i < n →
          Covered env c (RunFrom env c fuel page st).2.files (page + i) ∧
          ∃ e es, listEntries env c [] (page + i) = .ok (e :: es) := by
  induction fuel with
  | zero =>
    intro page st h
    cases h
  | succ f ih =>
    intro page st h
    rcases RunFrom_succ env c f page st with ⟨h0, hr⟩ | ⟨err, h0, hr⟩ | ⟨h0, hr⟩
    · rw [hr] at h ⊢
      obtain ⟨n, hn, hend, hcov⟩ := ih _ _ h
      have hc := runEntry_covers env c hu st page h0
      refine ⟨n + 1, by omega, ?_, fun i hi => ?_⟩
      · have : page + ((n + 1 : Nat) : Int) = page + 1 + (n : Int) := by push_cast; ring
        rw [this]; exact hend
      · cases i with
        | zero =>
          simp only [Nat.cast_zero, add_zero]
          exact ⟨hc.1.mono (fun path hp => RunFrom_present_mono env c f _ _ path hp), hc.2⟩
        | succ j =>
          have : page + ((j + 1 : Nat) : Int) = page + 1 + (j : Int) := by push_cast; ring
          rw [this]
          exact hcov j (by omega)
    · rw [hr] at h ⊢
      refine ⟨0, by omega, ?_, fun i hi => absurd hi (Nat.not_lt_zero i)⟩
      rcases runEntry_cases env c st page with ⟨cause, hc, hr1⟩ | ⟨hl, hr1⟩ | ⟨e, es, hl, hr1⟩
      · rw [hr1] at h0
        cases h0
        have := (listEntries_error hc).not_noMoreItems
        simp [GoError.isNoMoreItems, this] at h
      · rw [listEntries_unchanged hu st.trace []] at hl
        simpa using hl
      · rw [hr1] at h0
        have hf := (entryLoop_outcome env c (e :: es) _).2 err h0
        simp [hf.is_not_sentinel] at h
    · rw [hr] at h
      cases h

theorem processMatch_quiet (env : Env) (c : Collector) (files : String → Option Match)
    (st : State) (mid : matchID) (hQ : Quiet files st)
    (hp : (files (matchPath env c mid)).isSome = true) :
    Quiet files (processMatch env c st mid).2 := by
  obtain ⟨hq1, hq2⟩ := hQ
  rw [← hq1] at hp
  have hs := processMatch_step env c st mid
  generalize processMatch env c st mid = r at hs
  cases hs with
  | statFailed cause hc =>
    refine ⟨hq1, fun e he => ?_⟩
    rcases List.mem_append.1 he with h1 | h1
    · exact hq2 e h1
    · simp at h1; subst h1; rfl
  | present _ =>
    refine ⟨hq1, fun e he => ?_⟩
    rcases List.mem_append.1 he with h1 | h1
    · exact hq2 e h1
    · simp at h1; subst h1; rfl
  | fetchFailed ha cause hc => rw [ha] at hp; cases hp
  | createFailed ha m cause hc => rw [ha] at hp; cases hp
  | writeFailed ha m n cause hc => rw [ha] at hp; cases hp
  | saved ha m hget => rw [ha] at hp; cases hp

theorem Quiet.log {files : String → Option Match} {st : State} (hQ : Quiet files st)
    (e : Event) (he : e.isFetchOrSave = false) : Quiet files ⟨st.files, st.trace ++ [e]⟩ := by
  refine ⟨hQ.1, fun e1 he1 => ?_⟩
  rcases List.mem_append.1 he1 with h1 | h1
  · exact hQ.2 e1 h1
  · simp at h1; subst h1; exact he

theorem processEntry_quiet (env : Env) (c : Collector) (hu : Unchanged c)
    (files : String → Option Match) (st : State) (x : Option entry) (hQ : Quiet files st)
    (hc : EntryCovered env c files x) :
    Quiet files (processEntry env c st x).2 ∧ (processEntry env c st x).1 ≠ some .panic := by
  obtain ⟨e, rfl, hc⟩ := hc
  refine ⟨?_, processEntry_some_no_panic env c st e⟩
  rcases processEntry_cases env c st e with ⟨cause, -, hr⟩ | ⟨s, cause, -, -, hr⟩ |
    ⟨s, mids, hs, hm, hr⟩
  · rw [hr]; exact hQ.log _ rfl
  · rw [hr]
    have := (hQ.log (.getSummoner e.SummonerId (some s)) rfl).log (.listMatchIDs s.PUUID none) rfl
    simpa using this
  · rw [hr]
    rw [getSummoner_unchanged hu st.trace []] at hs
    rw [listMatchIDs_unchanged hu _ []] at hm
    have h1 := (hQ.log (.getSummoner e.SummonerId (some s)) rfl).log
      (.listMatchIDs s.PUUID (some mids)) rfl
    simp only [List.append_assoc, List.singleton_append] at h1
    have hinv := forRange_inv (processMatch env c) (Quiet files) (fun _ => Quiet files) mids
      (fun s1 mid hmid h2 =>
        ⟨fun _ => processMatch_quiet env c files s1 mid h2 (hc s hs mids hm mid hmid),
         fun _ _ => processMatch_quiet env c files s1 mid h2 (hc s hs mids hm mid hmid)⟩) _ h1
    cases hr1 : (forRange (processMatch env c) mids
        ⟨st.files, st.trace ++
          [.getSummoner e.SummonerId (some s), .listMatchIDs s.PUUID (some mids)]⟩).1 with
    | none => exact hinv.1 hr1
    | some err => exact hinv.2 err hr1

theorem runEntry_quiet (env : Env) (c : Collector) (hu : Unchanged c)
    (files : String → Option Match) (st : State) (page : Int) (hQ : Quiet files st)
    (hc : Covered env c files page) :
    Quiet files (runEntry env c st page).2 ∧ (runEntry env c st page).1 ≠ some .panic := by
  rcases runEntry_cases env c st page with ⟨cause, -, hr⟩ | ⟨-, hr⟩ | ⟨e, es, hl, hr⟩
  · rw [hr]; exact ⟨hQ.log _ rfl, fun h => by cases h⟩
  · rw [hr]; exact ⟨hQ.log _ rfl, fun h => by cases h⟩
  · rw [hr]
    rw [listEntries_unchanged hu st.trace []] at hl
    have hinv := forRange_inv (processEntry env c) (Quiet files)
      (fun x s => Quiet files s ∧ x ≠ .panic) (e :: es)
      (fun s1 x hx h2 =>
        ⟨fun _ => (processEntry_quiet env c hu files s1 x h2 (hc _ hl x hx)).1,
         fun err he => ⟨(processEntry_quiet env c hu files s1 x h2 (hc _ hl x hx)).1,
           fun h3 => (processEntry_quiet env c hu files s1 x h2 (hc _ hl x hx)).2
             (by rw [he, h3])⟩⟩) _
      (hQ.log (.listEntries page (some (e :: es))) rfl)
    cases hr1 : (forRange (processEntry env c) (e :: es)
        ⟨st.files, st.trace ++ [.listEntries page (some (e :: es))]⟩).1 with
    | none => exact ⟨hinv.1 hr1, fun h => by cases h⟩
    | some err => exact ⟨(hinv.2 err hr1).1, fun h => (hinv.2 err hr1).2 (by cases h; rfl)⟩

/-- A run over pages whose match ids all have their file changes no file and fetches
nothing, and it returns within the number of pages up to the first page without entries. -/
theorem RunFrom_quiet (env : Env) (c : Collector) (hu : Unchanged c)
    (files : String → Option Match) (fuel : Nat) :
    ∀ (page : Int) (n : Nat) (st : State), Quiet files st →
      listEntries env c [] (page + n) = .ok [] →
      (∀ i : Nat, i < n → Covered env c files (page + i) ∧
        ∃ e es, listEntries env c [] (page + i) = .ok (e :: es)) →
      Quiet files (RunFrom env c fuel page st).2 ∧
      (n < fuel → ∃ r, (RunFrom env c fuel page st).1 = .returned r) := by
  induction fuel with
  | zero =>
    intro page n st hQ _ _
    exact ⟨hQ, fun h => absurd h (Nat.not_lt_zero n)⟩
  | succ f ih =>
    intro page n st hQ hend hcov
    cases n with
    | zero =>
      simp only [Nat.cast_zero, add_zero] at hend
      rw [listEntries_unchanged hu [] st.trace] at hend
      rcases runEntry_cases env c st page with ⟨cause, hc, hr1⟩ | ⟨-, hr1⟩ | ⟨e, es, hl, hr1⟩
      · rw [hend] at hc; cases hc
      · rcases RunFrom_succ env c f page st with ⟨h0, hr⟩ | ⟨err, h0, hr⟩ | ⟨h0, hr⟩
        · rw [hr1] at h0; cases h0
        · rw [hr, hr1]
          exact ⟨hQ.log _ rfl, fun _ => by split <;> exact ⟨_, rfl⟩⟩
        · rw [hr1] at h0; cases h0
      · rw [hend] at hl; cases hl
    | succ m =>
      have h0c := hcov 0 (by omega)
      simp only [Nat.cast_zero, add_zero] at h0c
      have hQ1 := runEntry_quiet env c hu files st page hQ h0c.1
      rcases RunFrom_succ env c f page st with ⟨h0, hr⟩ | ⟨err, h0, hr⟩ | ⟨h0, hr⟩
      · rw [hr]
        have h1 := ih (page + 1) m (runEntry env c st page).2 hQ1.1
          (by
            have : page + 1 + (m : Int) = page + ((m + 1 : Nat) : Int) := by push_cast; ring
            rw [this]; exact hend)
          (fun i hi => by
            have : page + 1 + (i : Int) = page + ((i + 1 : Nat) : Int) := by push_cast; ring
            rw [this]; exact hcov (i + 1) (by omega))
        exact ⟨h1.1, fun h2 => h1.2 (by omega)⟩
      · rw [hr]
        exact ⟨hQ1.1, fun _ => by split <;> exact ⟨_, rfl⟩⟩
      · exact absurd h0 hQ1.2
/-! ## The order of the checks -/

theorem remaining_append (tr : List Event) (e : Event) :
    remaining (tr ++ [e]) = stepRemaining (remaining tr) e := by
  simp [remaining, List.foldl_append]

/-- The history stays ordered when a call is added that fits the ids still to be checked. -/
theorem Ordered.snoc {e : Event} : ∀ {tr : List Event} {rem : List matchID},
    Ordered rem tr →
    (∀ mid r, e = .matchExist mid r → (tr.foldl stepRemaining rem).head? = some mid) →
    (∀ mid, tr.getLast? = some (.matchExist mid (some true)) →
      NextOK (tr.foldl stepRemaining rem) e) →
    Ordered rem (tr ++ [e])
  | [], rem, _, h1, _ => by
    refine ⟨fun mid r he => by simpa using h1 mid r he, fun mid _ n hn => ?_, trivial⟩
    simp at hn
  | [a], rem, h, h1, h2 => by
    obtain ⟨i1, -, -⟩ := h
    refine ⟨i1, fun mid ha n hn => ?_, ?_⟩
    · simp at hn
      subst hn
      have := h2 mid (by simp [ha])
      simpa [ha, stepRemaining] using this
    · exact ⟨fun mid r he => by simpa using h1 mid r he, fun mid _ n hn => by simp at hn,
        trivial⟩
  | a :: b :: tl, rem, h, h1, h2 => by
    obtain ⟨i1, i2, i3⟩ := h
    refine ⟨i1, fun mid ha n hn => i2 mid ha n (by simpa using hn), ?_⟩
    exact Ordered.snoc i3 (fun mid r he => by simpa using h1 mid r he)
      (fun mid hl => by
        have := h2 mid (by simpa [List.getLast?_cons_cons] using hl)
        simpa using this)

/-- The part of an ordered history that starts at a call is ordered for the ids still to be
checked before that call. -/
theorem Ordered.from_call {e : Event} {tl : List Event} : ∀ (pre : List Event)
    (rem : List matchID), Ordered rem (pre ++ e :: tl) →
    Ordered (pre.foldl stepRemaining rem) (e :: tl)
  | [], _, h => h
  | _ :: pre, _, h => Ordered.from_call pre _ h.2.2

/-- The ids still to be checked come from the last listing, less one id for each check made
since. -/
theorem remaining_listing : ∀ (tr : List Event) (l : List matchID), l ≠ [] → remaining tr = l →
    ∃ pre0 puuid mids seg, tr = pre0 ++ .listMatchIDs puuid (some mids) :: seg ∧
      (∀ e ∈ seg, e.isQuery = false) ∧ mids.drop (seg.countP Event.isCheck) = l := by
  intro tr
  induction tr using List.reverseRecOn with
  | nil =>
    intro l hl h
    exact absurd h.symm hl
  | append_singleton tr e ih =>
    intro l hl h
    rw [remaining_append] at h
    have hsame : remaining tr = l → e.isQuery = false → e.isCheck = false →
        ∃ pre0 puuid mids seg, tr ++ [e] = pre0 ++ .listMatchIDs puuid (some mids) :: seg ∧
          (∀ e ∈ seg, e.isQuery = false) ∧ mids.drop (seg.countP Event.isCheck) = l := by
      intro h1 hq hc
      obtain ⟨pre0, puuid, mids, seg, rfl, hs, hd⟩ := ih l hl h1
      refine ⟨pre0, puuid, mids, seg ++ [e], by simp, fun x hx => ?_, ?_⟩
      · rcases List.mem_append.1 hx with h2 | h2
        · exact hs x h2
        · simp at h2; subst h2; exact hq
      · simpa [List.countP_append, hc] using hd
    cases e with
    | listEntries page res => exact absurd h.symm hl
    | getSummoner summonerId res => exact absurd h.symm hl
    | listMatchIDs puuid res =>
      cases res with
      | none => exact absurd h.symm hl
      | some mids => exact ⟨tr, puuid, mids, [], rfl, (fun _ hx => by cases hx), by simpa using h⟩
    | matchExist mid res =>
      have hne : remaining tr ≠ [] := by
        intro h0
        rw [h0] at h
        exact hl h.symm
      obtain ⟨pre0, puuid, mids, seg, rfl, hs, hd⟩ := ih _ hne rfl
      refine ⟨pre0, puuid, mids, seg ++ [.matchExist mid res], by simp, fun x hx => ?_, ?_⟩
      · rcases List.mem_append.1 hx with h2 | h2
        · exact hs x h2
        · simp at h2; subst h2; rfl
      · have h3 : stepRemaining (remaining (pre0 ++ .listMatchIDs puuid (some mids) :: seg))
            (.matchExist mid res) =
            (remaining (pre0 ++ .listMatchIDs puuid (some mids) :: seg)).tail := rfl
        rw [h3, ← hd, List.tail_drop] at h
        simpa [List.countP_append, Event.isCheck] using h
    | getMatch mid res => exact hsame h rfl rfl
    | saveMatch mid m ok => exact hsame h rfl rfl

/-- The state of a run in which the history is ordered and `rem` are the ids still to be
checked. -/
theorem processMatch_ordered (env : Env) (c : Collector) (st : State) (mid : matchID)
    (rest : List matchID) (hO : Ordered [] st.trace) (hR : remaining st.trace = mid :: rest) :
    Ordered [] (processMatch env c st mid).2.trace ∧
    remaining (processMatch env c st mid).2.trace = rest := by
  have hcheck : ∀ r, Ordered [] (st.trace ++ [.matchExist mid r]) := fun r =>
    hO.snoc (fun mid1 r1 he => by
        cases he
        show (remaining st.trace).head? = some mid
        rw [hR]
        rfl)
      (fun _ _ => by
        show NextOK (remaining st.trace) _
        rw [hR]
        exact ⟨r, rfl⟩)
  have hrem : ∀ r, remaining (st.trace ++ [.matchExist mid r]) = rest := fun r => by
    rw [remaining_append, hR]; rfl
  have hs := processMatch_step env c st mid
  generalize processMatch env c st mid = r at hs
  cases hs with
  | statFailed cause hc => exact ⟨hcheck none, hrem none⟩
  | present hp => exact ⟨hcheck (some true), hrem (some true)⟩
  | fetchFailed ha cause hc =>
    have h1 : Ordered [] ((st.trace ++ [.matchExist mid (some false)]) ++ [.getMatch mid none]) :=
      (hcheck (some false)).snoc (fun _ _ he => by cases he) (fun _ hl => by simp at hl)
    have h2 : remaining ((st.trace ++ [.matchExist mid (some false)]) ++ [.getMatch mid none])
        = rest := by
      rw [remaining_append, hrem]; rfl
    exact ⟨by simpa using h1, by simpa using h2⟩
  | createFailed ha m cause hc hget =>
    have h1 : Ordered [] (((st.trace ++ [.matchExist mid (some false)]) ++
        [.getMatch mid (some m)]) ++ [.saveMatch mid m false]) :=
      ((hcheck (some false)).snoc (fun _ _ he => by cases he)
        (fun _ hl => by simp at hl)).snoc (fun _ _ he => by cases he)
        (fun _ hl => by simp at hl)
    have h2 : remaining (((st.trace ++ [.matchExist mid (some false)]) ++
        [.getMatch mid (some m)]) ++ [.saveMatch mid m false]) = rest := by
      rw [remaining_append, remaining_append, hrem]; rfl
    exact ⟨by simpa using h1, by simpa using h2⟩
  | writeFailed ha m n cause hc hget =>
    have h1 : Ordered [] (((st.trace ++ [.matchExist mid (some false)]) ++
        [.getMatch mid (some m)]) ++ [.saveMatch mid m false]) :=
      ((hcheck (some false)).snoc (fun _ _ he => by cases he)
        (fun _ hl => by simp at hl)).snoc (fun _ _ he => by cases he)
        (fun _ hl => by simp at hl)
    have h2 : remaining (((st.trace ++ [.matchExist mid (some false)]) ++
        [.getMatch mid (some m)]) ++ [.saveMatch mid m false]) = rest := by
      rw [remaining_append, remaining_append, hrem]; rfl
    exact ⟨by simpa using h1, by simpa using h2⟩
  | saved ha m hget =>
    have h1 : Ordered [] (((st.trace ++ [.matchExist mid (some false)]) ++
        [.getMatch mid (some m)]) ++ [.saveMatch mid m true]) :=
      ((hcheck (some false)).snoc (fun _ _ he => by cases he)
        (fun _ hl => by simp at hl)).snoc (fun _ _ he => by cases he)
        (fun _ hl => by simp at hl)
    have h2 : remaining (((st.trace ++ [.matchExist mid (some false)]) ++
        [.getMatch mid (some m)]) ++ [.saveMatch mid m true]) = rest := by
      rw [remaining_append, remaining_append, hrem]; rfl
    exact ⟨by simpa using h1, by simpa using h2⟩

theorem matchLoop_ordered (env : Env) (c : Collector) (mids : List matchID) :
    ∀ st : State, Ordered [] st.trace → remaining st.trace = mids →
      Ordered [] (forRange (processMatch env c) mids st).2.trace ∧
      ((forRange (processMatch env c) mids st).1 = none →
        remaining (forRange (processMatch env c) mids st).2.trace = []) := by
  induction mids with
  | nil =>
    intro st hO hR
    simp [forRange_nil, hO, hR]
  | cons mid rest ih =>
    intro st hO hR
    have h := processMatch_ordered env c st mid rest hO hR
    cases hr : (processMatch env c st mid).1 with
    | some err =>
      rw [forRange_cons_error rest hr]
      exact ⟨h.1, fun h0 => by rw [hr] at h0; cases h0⟩
    | none =>
      rw [forRange_cons_ok rest hr]
      exact ih _ h.1 h.2

/-- A lookup or listing call made when no id is left to be checked keeps the history
ordered. -/
theorem Ordered.query {tr : List Event} (hO : Ordered [] tr) (hR : remaining tr = [])
    (e : Event) (he : e.isQuery = true) : Ordered [] (tr ++ [e]) :=
  hO.snoc (fun mid r h => by subst h; cases he)
    (fun _ _ => by
      show NextOK (remaining tr) e
      rw [hR]
      exact he)

theorem processEntry_ordered (env : Env) (c : Collector) (st : State) (x : Option entry)
    (hO : Ordered [] st.trace) (hR : remaining st.trace = []) :
    Ordered [] (processEntry env c st x).2.trace ∧
    ((processEntry env c st x).1 = none → remaining (processEntry env c st x).2.trace = []) ∧
    ((processEntry env c st x).1 = some .panic →
      remaining (processEntry env c st x).2.trace = []) := by
  cases x with
  | none =>
    rw [processEntry_nil]
    exact ⟨hO, fun _ => hR, fun _ => hR⟩
  | some e =>
    have hnp := processEntry_some_no_panic env c st e
    rcases processEntry_cases env c st e with ⟨cause, -, hr⟩ | ⟨s, cause, -, -, hr⟩ |
      ⟨s, mids, -, -, hr⟩
    · rw [hr]
      exact ⟨hO.query hR (.getSummoner e.SummonerId none) rfl, (fun h => by cases h),
        fun h => by cases h⟩
    · rw [hr]
      have h1 := hO.query hR (.getSummoner e.SummonerId (some s)) rfl
      have h2 := h1.query (by rw [remaining_append]; rfl) (.listMatchIDs s.PUUID none) rfl
      exact ⟨by simpa using h2, (fun h => by cases h), fun h => by cases h⟩
    · rw [hr] at hnp ⊢
      have h1 := hO.query hR (.getSummoner e.SummonerId (some s)) rfl
      have h2 := h1.query (by rw [remaining_append]; rfl)
        (.listMatchIDs s.PUUID (some mids)) rfl
      have h3 : remaining ((st.trace ++ [.getSummoner e.SummonerId (some s)]) ++
          [.listMatchIDs s.PUUID (some mids)]) = mids := by
        rw [remaining_append]; rfl
      simp only [List.append_assoc, List.singleton_append] at h2 h3
      have h4 := matchLoop_ordered env c mids
        ⟨st.files, st.trace ++
          [.getSummoner e.SummonerId (some s), .listMatchIDs s.PUUID (some mids)]⟩ h2 h3
      exact ⟨h4.1, fun h0 => h4.2 (by simpa using h0), fun h0 => absurd h0 hnp⟩

theorem runEntry_ordered (env : Env) (c : Collector) (st : State) (page : Int)
    (hO : Ordered [] st.trace) (hR : remaining st.trace = []) :
    Ordered [] (runEntry env c st page).2.trace ∧
    ((runEntry env c st page).1 = none → remaining (runEntry env c st page).2.trace = []) ∧
    ((runEntry env c st page).1 = some .panic →
      remaining (runEntry env c st page).2.trace = []) := by
  rcases runEntry_cases env c st page with ⟨cause, -, hr⟩ | ⟨-, hr⟩ | ⟨e, es, -, hr⟩
  · rw [hr]
    exact ⟨hO.query hR (.listEntries page none) rfl, (fun h => by cases h),
      fun h => by cases h⟩
  · rw [hr]
    exact ⟨hO.query hR (.listEntries page (some [])) rfl, (fun h => by cases h),
      fun h => by cases h⟩
  · rw [hr]
    have hinv := forRange_inv (processEntry env c)
      (fun s => Ordered [] s.trace ∧ remaining s.trace = [])
      (fun x s => Ordered [] s.trace ∧ (x = .panic → remaining s.trace = [])) (e :: es)
      (fun s x _ h2 => ⟨fun h0 => ⟨(processEntry_ordered env c s x h2.1 h2.2).1,
          (processEntry_ordered env c s x h2.1 h2.2).2.1 h0⟩,
        fun err he => ⟨(processEntry_ordered env c s x h2.1 h2.2).1, fun h3 =>
          (processEntry_ordered env c s x h2.1 h2.2).2.2 (by rw [he, h3])⟩⟩)
      ⟨st.files, st.trace ++ [.listEntries page (some (e :: es))]⟩
      ⟨hO.query hR (.listEntries page (some (e :: es))) rfl, by rw [remaining_append]; rfl⟩
    cases hr1 : (forRange (processEntry env c) (e :: es)
        ⟨st.files, st.trace ++ [.listEntries page (some (e :: es))]⟩).1 with
    | none => exact ⟨(hinv.1 hr1).1, fun _ => (hinv.1 hr1).2, fun h => by cases h⟩
    | some err =>
      exact ⟨(hinv.2 err hr1).1, (fun h => by cases h),
        fun h => (hinv.2 err hr1).2 (by cases h; rfl)⟩

theorem RunFrom_ordered (env : Env) (c : Collector) (fuel : Nat) :
    ∀ (page : Int) (st : State), Ordered [] st.trace → remaining st.trace = [] →
      Ordered [] (RunFrom env c fuel page st).2.trace ∧
      ((RunFrom env c fuel page st).1 = .running ∨ (RunFrom env c fuel page st).1 = .panicked →
        remaining (RunFrom env c fuel page st).2.trace = []) := by
  induction fuel with
  | zero =>
    intro page st hO hR
    exact ⟨hO, fun _ => hR⟩
  | succ n ih =>
    intro page st hO hR
    have hre := runEntry_ordered env c st page hO hR
    rcases RunFrom_succ env c n page st with ⟨h0, hr⟩ | ⟨err, h0, hr⟩ | ⟨h0, hr⟩
    · rw [hr]
      exact ih _ _ hre.1 (hre.2.1 h0)
    · rw [hr]
      refine ⟨hre.1, fun h1 => ?_⟩
      rcases h1 with h1 | h1 <;> (split at h1 <;> cases h1)
    · rw [hr]
      exact ⟨hre.1, fun _ => hre.2.2 h0⟩

/-- In the history of a run, a check that reported the id as present is the check of an id
of the last listing before it: the id at the position given by the number of checks made
since that listing. When the listing has a further id, the next call of the run is the check
of that id; when it has none, the next call, if there is one, is a lookup or listing call. -/
theorem Run_next_check (env : Env) (c : Collector) (fuel : Nat) (files : String → Option Match)
    (pre post : List Event) (mid : matchID)
    (h : (Run env c fuel files).2.trace = pre ++ .matchExist mid (some true) :: post) :
    ∃ pre0 puuid mids seg, pre = pre0 ++ .listMatchIDs puuid (some mids) :: seg ∧
      (∀ e ∈ seg, e.isQuery = false) ∧
      mids[seg.countP Event.isCheck]? = some mid ∧
      (∀ mid1, mids[seg.countP Event.isCheck + 1]? = some mid1 →
        ∃ r post1, post = .matchExist mid1 r :: post1) ∧
      (mids[seg.countP Event.isCheck + 1]? = none →
        ∀ next ∈ post.head?, next.isQuery = true) := by
  have hrun := RunFrom_ordered env c fuel 1 ⟨files, []⟩ trivial rfl
  have hO : Ordered [] (Run env c fuel files).2.trace := hrun.1
  have hidle : (Run env c fuel files).1 = .running ∨ (Run env c fuel files).1 = .panicked →
      remaining (Run env c fuel files).2.trace = [] := hrun.2
  have hout := RunFrom_outcome env c fuel 1 ⟨files, []⟩
  have hout1 : (Run env c fuel files).1 = .returned none →
      ∃ p, (Run env c fuel files).2.trace.getLast? = some (.listEntries p (some [])) := hout.1
  have hout2 : ∀ err, (Run env c fuel files).1 = .returned (some err) →
      ∃ p inner, err = .wrapf ("failed run entry page " ++ toString p) inner ∧
        Failure env c inner (Run env c fuel files).2.trace ∧
        (listedPages (Run env c fuel files).2.trace).getLast? = some p := hout.2
  rw [h] at hO hidle hout1 hout2
  obtain ⟨i1, i2, -⟩ := Ordered.from_call pre [] hO
  have h1 := i1 mid (some true) rfl
  change (remaining pre).head? = some mid at h1
  obtain ⟨rest, hrem⟩ : ∃ rest, remaining pre = mid :: rest := by
    cases hp : remaining pre with
    | nil => rw [hp] at h1; cases h1
    | cons a l =>
      rw [hp] at h1
      simp at h1
      subst h1
      exact ⟨l, rfl⟩
  have hnext : match post with
      | [] => rest = []
      | next :: _ => NextOK rest next := by
    cases post with
    | nil =>
      have hlast : (pre ++ [Event.matchExist mid (some true)]).getLast? =
          some (.matchExist mid (some true)) := by simp
      have hr : remaining (pre ++ [Event.matchExist mid (some true)]) = rest := by
        rw [remaining_append, hrem]; rfl
      show rest = []
      rw [← hr]
      apply hidle
      cases hres : (Run env c fuel files).1 with
      | running => exact Or.inl rfl
      | panicked => exact Or.inr rfl
      | returned r =>
        exfalso
        cases r with
        | none =>
          obtain ⟨p, hp⟩ := hout1 hres
          rw [hlast] at hp
          cases hp
        | some err =>
          obtain ⟨p, inner, -, hf, -⟩ := hout2 err hres
          obtain ⟨e, he, hfe⟩ := hf.last_failed
          rw [hlast] at he
          cases he
          cases hfe
    | cons next post1 =>
      have h2 := i2 mid rfl next (by simp)
      change NextOK (remaining pre).tail next at h2
      rw [hrem] at h2
      exact h2
  obtain ⟨pre0, puuid, mids, seg, hpre, hs, hd⟩ :=
    remaining_listing pre (mid :: rest) (by simp) hrem
  have hd1 : mids.drop (seg.countP Event.isCheck + 1) = rest := by
    have := congrArg List.tail hd
    simpa [List.tail_drop] using this
  refine ⟨pre0, puuid, mids, seg, hpre, hs, ?_, ?_, ?_⟩
  · have := congrArg List.head? hd
    simpa [List.head?_drop] using this
  · intro mid1 hm
    have h3 : rest.head? = some mid1 := by
      rw [← hd1]
      simpa [List.head?_drop] using hm
    cases rest with
    | nil => cases h3
    | cons a l =>
      simp at h3
      subst h3
      cases post with
      | nil => cases hnext
      | cons next post1 =>
        obtain ⟨r, hr⟩ := hnext
        exact ⟨r, post1, by rw [hr]⟩
  · intro hm next hn
    have h3 : rest = [] := by
      rw [← hd1, List.drop_eq_nil_iff]
      exact List.getElem?_eq_none_iff.1 hm
    subst h3
    cases post with
    | nil => cases hn
    | cons n post1 =>
      simp at hn
      subst hn
      exact hnext
/-! ## The claims -/

/-- C1, refuted: let page 1 be the JSON array `[null]` and page 2 the empty array. Then
`listEntries` succeeds with a non-empty list on page 1 and with the empty list on page 2,
whenever it is called, and no call of the run fails; and yet `Run` does not return: it panics
at the nil entry of page 1, having made the `listEntries` call of page 1 only, whatever the
bound on the number of pages. -/
theorem C1_counterexample :
    (∀ (h : List Event) (p : Int), 1 ≤ p → p < (2 : Nat) →
      ∃ es, listEntries demoEnv (brokenCli (entriesURL 1) 200 [6]) h p = .ok es ∧ es ≠ []) ∧
    (∀ h : List Event,
      listEntries demoEnv (brokenCli (entriesURL 1) 200 [6]) h (2 : Nat) = .ok []) ∧
    (∀ e ∈ (Run demoEnv (brokenCli (entriesURL 1) 200 [6]) 5 demoFiles).2.trace,
      e.failed = false) ∧
    (Run demoEnv (brokenCli (entriesURL 1) 200 [6]) 5 demoFiles).1 = .panicked ∧
    (Run demoEnv (brokenCli (entriesURL 1) 200 [6]) 5 demoFiles).2.trace =
      [.listEntries 1 (some [none])] ∧
    listedPages (Run demoEnv (brokenCli (entriesURL 1) 200 [6]) 5 demoFiles).2.trace = [1] ∧
    (∀ fuel : Nat,
      (Run demoEnv (brokenCli (entriesURL 1) 200 [6]) (fuel + 1) demoFiles).1 = .panicked) := by
  refine ⟨?_, ?_, by decide, by decide, by decide, by decide, ?_⟩
  · intro h p h1 h2
    obtain rfl : p = 1 := by omega
    refine ⟨[none], ?_, by decide⟩
    show listEntries demoEnv (brokenCli (entriesURL 1) 200 [6]) [] 1 = _
    decide
  · intro h
    show listEntries demoEnv (brokenCli (entriesURL 1) 200 [6]) [] (2 : Nat) = _
    decide
  · intro fuel
    have hr : runEntry demoEnv (brokenCli (entriesURL 1) 200 [6]) ⟨demoFiles, []⟩ 1 =
        (some .panic, ⟨demoFiles, [.listEntries 1 (some [none])]⟩) := by
      have h1 : listEntries demoEnv (brokenCli (entriesURL 1) 200 [6]) [] 1 = .ok [none] := by
        decide
      simp [runEntry, h1, State.log, forRange, processEntry]
    simp [Run, RunFrom, hr]

/-- C1, amended. Let `k ≥ 1`, let `listEntries` succeed with a non-empty list without nil
entries on the pages 1 to `k - 1` and with the empty list on page `k`, whenever it is called.
Then `Run` returns (within `k` turns of its loop); and if every call made during the run
succeeded, it returns nil and its `listEntries` calls are exactly those of the pages 1, 2,
..., `k`, in this order. -/
theorem C1_pages_until_empty (env : Env) (c : Collector) (k fuel : Nat)
    (files : String → Option Match) (hk : 1 ≤ k) (hfuel : k ≤ fuel)
    (hne : ∀ (h : List Event) (p : Int), 1 ≤ p → p < k →
      ∃ es, listEntries env c h p = .ok es ∧ es ≠ [] ∧ ∀ x ∈ es, x ≠ none)
    (hend : ∀ h : List Event, listEntries env c h k = .ok []) :
    (∃ r, (Run env c fuel files).1 = .returned r) ∧
    ((∀ e ∈ (Run env c fuel files).2.trace, e.failed = false) →
      (Run env c fuel files).1 = .returned none ∧
      listedPages (Run env c fuel files).2.trace =
        (List.range k).map (fun i : Nat => (1 : Int) + (i : Int))) := by
  obtain ⟨n, rfl⟩ : ∃ n, k = n + 1 := ⟨k - 1, by omega⟩
  have h := RunFrom_pages env c ((n + 1 : Nat) : Int) hne hend n 1 ⟨files, []⟩ fuel
    (by omega) (by push_cast; ring) (by omega)
  refine ⟨h.1, fun hall => ?_⟩
  obtain ⟨h1, h2⟩ := h.2 hall
  exact ⟨h1, by simpa [listedPages] using h2⟩

/-- C1 amended, at the scenario of the specification, where page 2 is the first empty
page. -/
theorem C1_pages_until_empty_witness :
    ((1 ≤ 2 ∧ 2 ≤ 5) ∧
      (∀ (h : List Event) (p : Int), 1 ≤ p → p < (2 : Nat) →
        ∃ es, listEntries demoEnv demoCli h p = .ok es ∧ es ≠ [] ∧ ∀ x ∈ es, x ≠ none) ∧
      (∀ h : List Event, listEntries demoEnv demoCli h (2 : Nat) = .ok []) ∧
      (∀ e ∈ (Run demoEnv demoCli 5 demoFiles).2.trace, e.failed = false)) ∧
    ((Run demoEnv demoCli 5 demoFiles).1 = .returned none ∧
      listedPages (Run demoEnv demoCli 5 demoFiles).2.trace = [1, 2]) :=
  have hne : ∀ (h : List Event) (p : Int), 1 ≤ p → p < (2 : Nat) →
      ∃ es, listEntries demoEnv demoCli h p = .ok es ∧ es ≠ [] ∧ ∀ x ∈ es, x ≠ none := by
    intro h p h1 h2
    obtain rfl : p = 1 := by omega
    refine ⟨[some ⟨"league", "summonerA"⟩, some ⟨"league", "summonerB"⟩], ?_, by decide,
      by decide⟩
    show listEntries demoEnv demoCli [] 1 = _
    decide
  have hend : ∀ h : List Event, listEntries demoEnv demoCli h (2 : Nat) = .ok [] := by
    intro h
    show listEntries demoEnv demoCli [] (2 : Nat) = _
    decide
  have hall : ∀ e ∈ (Run demoEnv demoCli 5 demoFiles).2.trace, e.failed = false := by
    decide
  ⟨⟨⟨by decide, by decide⟩, hne, hend, hall⟩,
    (C1_pages_until_empty demoEnv demoCli 2 5 demoFiles (by decide) (by decide) hne hend).2 hall⟩

/-- C2. In every run, a `matchExist` call that reports the id as present is the check of an
id of the last `listMatchIDs` call before it, the id at the position given by the number of
checks made since that listing, and it is followed neither by a `getMatch` nor by a
`saveMatch` call: when the listing has a further id, the run goes on and its next call is
the `matchExist` of that id; when it has none, the next call, if there is one, is the
`getSummoner` of the next entry or the `listEntries` of the next page. The call reports the
id as present only if its file is in the output directory, and the iteration then ends
without error, leaving the files as they were and adding only that call to the history, and
the loop goes on with the ids after it. -/
theorem C2_present_match_is_skipped (env : Env) (c : Collector) (fuel : Nat)
    (files : String → Option Match) (pre post : List Event) (mid : matchID)
    (h : (Run env c fuel files).2.trace = pre ++ .matchExist mid (some true) :: post) :
    (∀ next post1, post = next :: post1 →
      next.isFetchOrSave = false ∧ next.startsItem = true) ∧
    (∃ pre0 puuid mids seg, pre = pre0 ++ .listMatchIDs puuid (some mids) :: seg ∧
      (∀ e ∈ seg, e.isQuery = false) ∧
      mids[seg.countP Event.isCheck]? = some mid ∧
      (∀ mid1, mids[seg.countP Event.isCheck + 1]? = some mid1 →
        ∃ r post1, post = .matchExist mid1 r :: post1) ∧
      (mids[seg.countP Event.isCheck + 1]? = none → ∀ next post1, post = next :: post1 →
        (∃ summonerId r, next = .getSummoner summonerId r) ∨
        (∃ page r, next = .listEntries page r))) ∧
    (∀ st : State, matchExist env c st mid = .ok true →
      (st.files (matchPath env c mid)).isSome = true ∧
      processMatch env c st mid =
        (none, ⟨st.files, st.trace ++ [.matchExist mid (some true)]⟩) ∧
      ∀ rest, forRange (processMatch env c) (mid :: rest) st =
        forRange (processMatch env c) rest
          ⟨st.files, st.trace ++ [.matchExist mid (some true)]⟩) := by
  have hstart : ∀ next post1, post = next :: post1 → next.startsItem = true := by
    intro next post1 hp
    subst hp
    have h1 := chain_next _ _ _ _ (Run_chain env c fuel files).1 h
    simpa [follows] using h1
  obtain ⟨pre0, puuid, mids, seg, hpre, hs, hm, hnext, hlast⟩ :=
    Run_next_check env c fuel files pre post mid h
  refine ⟨fun next post1 hp => ⟨?_, hstart next post1 hp⟩,
    ⟨pre0, puuid, mids, seg, hpre, hs, hm, hnext, fun hn next post1 hp => ?_⟩,
    fun st hx => ?_⟩
  · have h2 := hstart next post1 hp
    cases next <;> simp_all [Event.startsItem, Event.isFetchOrSave]
  · have h2 := hstart next post1 hp
    have h3 := hlast hn next (by rw [hp]; rfl)
    cases next with
    | listEntries page r => exact Or.inr ⟨page, r, rfl⟩
    | getSummoner summonerId r => exact Or.inl ⟨summonerId, r, rfl⟩
    | listMatchIDs puuid r => cases h2
    | matchExist mid1 r => cases h3
    | getMatch mid1 r => cases h3
    | saveMatch mid1 m ok => cases h3
  · have hpm : processMatch env c st mid =
        (none, ⟨st.files, st.trace ++ [.matchExist mid (some true)]⟩) := by
      simp [processMatch, hx, State.log]
    refine ⟨(matchExist_ok hx).1.symm, hpm, fun rest => ?_⟩
    rw [forRange_cons_ok rest (by rw [hpm]), hpm]

/-- C2 at the scenario of the specification: the check of m1, which is stored, is the check
of the first id of the listing of A, and it is followed by the check of m2, the second
id. -/
theorem C2_present_match_is_skipped_witness :
    (Run demoEnv demoCli 5 demoFiles).2.trace =
      [.listEntries 1 (some [some ⟨"league", "summonerA"⟩, some ⟨"league", "summonerB"⟩]),
        .getSummoner "summonerA" (some ⟨"puuidA"⟩), .listMatchIDs "puuidA" (some ["m1", "m2"])] ++
      .matchExist "m1" (some true) ::
      [.matchExist "m2" (some false), .getMatch "m2" (some [7, 7]), .saveMatch "m2" [7, 7] true,
        .getSummoner "summonerB" (some ⟨"puuidB"⟩), .listMatchIDs "puuidB" (some ["m2"]),
        .matchExist "m2" (some true), .listEntries 2 (some [])] ∧
    ∃ pre0 puuid mids seg,
      ([.listEntries 1 (some [some ⟨"league", "summonerA"⟩, some ⟨"league", "summonerB"⟩]),
        .getSummoner "summonerA" (some ⟨"puuidA"⟩),
        .listMatchIDs "puuidA" (some ["m1", "m2"])] : List Event)
        = pre0 ++ .listMatchIDs puuid (some mids) :: seg ∧
      (∀ e ∈ seg, e.isQuery = false) ∧
      mids[seg.countP Event.isCheck]? = some "m1" ∧
      (∀ mid1, mids[seg.countP Event.isCheck + 1]? = some mid1 →
        ∃ r post1,
          ([.matchExist "m2" (some false), .getMatch "m2" (some [7, 7]),
            .saveMatch "m2" [7, 7] true, .getSummoner "summonerB" (some ⟨"puuidB"⟩),
            .listMatchIDs "puuidB" (some ["m2"]), .matchExist "m2" (some true),
            .listEntries 2 (some [])] : List Event) = .matchExist mid1 r :: post1) ∧
      (mids[seg.countP Event.isCheck + 1]? = none → ∀ next post1,
        ([.matchExist "m2" (some false), .getMatch "m2" (some [7, 7]),
          .saveMatch "m2" [7, 7] true, .getSummoner "summonerB" (some ⟨"puuidB"⟩),
          .listMatchIDs "puuidB" (some ["m2"]), .matchExist "m2" (some true),
          .listEntries 2 (some [])] : List Event) = next :: post1 →
        (∃ summonerId r, next = .getSummoner summonerId r) ∨
        (∃ page r, next = .listEntries page r)) :=
  ⟨by decide, (C2_present_match_is_skipped demoEnv demoCli 5 demoFiles
    [.listEntries 1 (some [some ⟨"league", "summonerA"⟩, some ⟨"league", "summonerB"⟩]),
      .getSummoner "summonerA" (some ⟨"puuidA"⟩), .listMatchIDs "puuidA" (some ["m1", "m2"])]
    [.matchExist "m2" (some false), .getMatch "m2" (some [7, 7]), .saveMatch "m2" [7, 7] true,
      .getSummoner "summonerB" (some ⟨"puuidB"⟩), .listMatchIDs "puuidB" (some ["m2"]),
      .matchExist "m2" (some true), .listEntries 2 (some [])]
    "m1" (by decide)).2.1⟩

/-- C3. Let the remote answer each request the same way whenever it is made, and let `Run`
return nil. A second run on the output directory left by the first one makes no `getMatch`
and no `saveMatch` call and leaves every file as it is, for as long as it runs; and it
returns within the number of pages the first run was given. -/
theorem C3_second_run_is_idle (env : Env) (c : Collector) (fuel fuel2 : Nat)
    (files : String → Option Match) (hu : Unchanged c)
    (h : (Run env c fuel files).1 = .returned none) :
    (∀ e ∈ (Run env c fuel2 (Run env c fuel files).2.files).2.trace,
      e.isFetchOrSave = false) ∧
    (Run env c fuel2 (Run env c fuel files).2.files).2.files = (Run env c fuel files).2.files ∧
    (fuel ≤ fuel2 → ∃ r, (Run env c fuel2 (Run env c fuel files).2.files).1 = .returned r) := by
  obtain ⟨n, hn, hend, hcov⟩ := RunFrom_covers env c hu fuel 1 ⟨files, []⟩ h
  have hq := RunFrom_quiet env c hu (Run env c fuel files).2.files fuel2 1 n
    ⟨(Run env c fuel files).2.files, []⟩ ⟨rfl, fun e he => by cases he⟩ hend hcov
  exact ⟨hq.1.2, hq.1.1, fun hle => hq.2 (by omega)⟩

/-- C3 at the scenario of the specification. -/
theorem C3_second_run_is_idle_witness :
    (Unchanged demoCli ∧ (Run demoEnv demoCli 5 demoFiles).1 = .returned none) ∧
    (Run demoEnv demoCli 5 (Run demoEnv demoCli 5 demoFiles).2.files).2.files =
      (Run demoEnv demoCli 5 demoFiles).2.files :=
  ⟨⟨fun _ _ _ => rfl, by decide⟩,
    (C3_second_run_is_idle demoEnv demoCli 5 5 demoFiles (fun _ _ _ => rfl) (by decide)).2.1⟩

/-- C4, refuted: when every write fails after one byte, `saveMatch` of the record 7, 7 of m2
returns the write error, and afterwards `matchExist` reports m2 as existing although the
file holds the single byte 7. A run of the scenario on such a disk fails in that `saveMatch`
call, and a later run on a healthy disk returns nil without fetching m2, leaving the cut
record in place. -/
theorem C4_counterexample :
    (saveMatch diskFullEnv demoCli ⟨demoFiles, []⟩ "m2" [7, 7]).1 =
      some (.wrapf "writing failed" (.external "no space left on device")) ∧
    matchExist diskFullEnv demoCli (saveMatch diskFullEnv demoCli ⟨demoFiles, []⟩ "m2" [7, 7]).2
      "m2" = .ok true ∧
    (saveMatch diskFullEnv demoCli ⟨demoFiles, []⟩ "m2" [7, 7]).2.files "out/m2.json" =
      some [7] ∧
    (Run diskFullEnv demoCli 5 demoFiles).2.trace.getLast? = some (.saveMatch "m2" [7, 7] false) ∧
    (Run demoEnv demoCli 5 (Run diskFullEnv demoCli 5 demoFiles).2.files).1 = .returned none ∧
    fetchCount "m2" (Run demoEnv demoCli 5 (Run diskFullEnv demoCli 5 demoFiles).2.files).2.trace
      = 0 ∧
    (Run demoEnv demoCli 5 (Run diskFullEnv demoCli 5 demoFiles).2.files).2.files "out/m2.json"
      = some [7] := by
  decide

/-- C4, amended. What `saveMatch` does is fixed by which of its two steps fails. When
`os.Create` fails, it returns that error and the output directory is as before. When
`os.Create` succeeds and the write fails after `n` bytes, it returns the write error, the
file of the id is left holding the first `n` bytes of the record, and every later
`matchExist` of the id that does not fail reports the id as existing. When neither fails, it
returns nil and the file holds the complete record. No other file changes, and a
`matchExist` that does not fail reports the id as existing exactly when the file exists,
whatever it holds. -/
theorem C4_saveMatch_outcomes (env : Env) (c : Collector) (st : State) (mid : matchID)
    (m : Match) :
    (∀ msg, env.CreateFault st.trace (matchPath env c mid) = some msg →
      saveMatch env c st mid m = (some (.wrapf "os.Create" (.external msg)), st)) ∧
    (∀ n msg, env.CreateFault st.trace (matchPath env c mid) = none →
      env.WriteFault st.trace (matchPath env c mid) m = some (n, msg) →
      saveMatch env c st mid m = (some (.wrapf "writing failed" (.external msg)),
        ⟨Function.update st.files (matchPath env c mid) (some (m.take n)), st.trace⟩) ∧
      ∀ tr : List Event, env.StatFault tr (matchPath env c mid) = none →
        matchExist env c ⟨(saveMatch env c st mid m).2.files, tr⟩ mid = .ok true) ∧
    (env.CreateFault st.trace (matchPath env c mid) = none →
      env.WriteFault st.trace (matchPath env c mid) m = none →
      saveMatch env c st mid m =
        (none, ⟨Function.update st.files (matchPath env c mid) (some m), st.trace⟩)) ∧
    (∀ path, path ≠ matchPath env c mid →
      (saveMatch env c st mid m).2.files path = st.files path) ∧
    (∀ (tr : List Event) (b : Bool),
      matchExist env c ⟨(saveMatch env c st mid m).2.files, tr⟩ mid = .ok b →
      b = ((saveMatch env c st mid m).2.files (matchPath env c mid)).isSome) := by
  refine ⟨fun msg hc => ?_, fun n msg hc hw => ?_, fun hc hw => ?_,
    fun path hne => saveMatch_frame env c st mid m path hne,
    fun tr b hb => (matchExist_ok hb).1⟩
  · rcases saveMatch_cases env c st mid m with ⟨msg1, h1, hs⟩ | ⟨n1, msg1, h1, -, hs⟩ |
      ⟨h1, -, hs⟩
    · rw [hc] at h1; cases h1; exact hs
    · rw [hc] at h1; cases h1
    · rw [hc] at h1; cases h1
  · rcases saveMatch_cases env c st mid m with ⟨msg1, h1, hs⟩ | ⟨n1, msg1, -, h2, hs⟩ |
      ⟨-, h2, hs⟩
    · rw [hc] at h1; cases h1
    · rw [hw] at h2
      cases h2
      refine ⟨hs, fun tr ht => ?_⟩
      rw [hs]
      simp [matchExist, osStat, ht]
    · rw [hw] at h2; cases h2
  · rcases saveMatch_cases env c st mid m with ⟨msg1, h1, hs⟩ | ⟨n1, msg1, -, h2, hs⟩ |
      ⟨-, -, hs⟩
    · rw [hc] at h1; cases h1
    · rw [hw] at h2; cases h2
    · exact hs

/-- C4 amended, on the disk where every write fails after one byte: after the failed
`saveMatch` of m2, `matchExist` reports m2 as existing. -/
theorem C4_saveMatch_outcomes_witness :
    (diskFullEnv.CreateFault [] (matchPath diskFullEnv demoCli "m2") = none ∧
      diskFullEnv.WriteFault [] (matchPath diskFullEnv demoCli "m2") [7, 7] =
        some (1, "no space left on device") ∧
      diskFullEnv.StatFault [] (matchPath diskFullEnv demoCli "m2") = none) ∧
    matchExist diskFullEnv demoCli
      ⟨(saveMatch diskFullEnv demoCli ⟨demoFiles, []⟩ "m2" [7, 7]).2.files, []⟩ "m2" = .ok true :=
  ⟨⟨by decide, by decide, by decide⟩,
    ((C4_saveMatch_outcomes diskFullEnv demoCli ⟨demoFiles, []⟩ "m2" [7, 7]).2.1 1
      "no space left on device" (by decide) (by decide)).2 [] (by decide)⟩

/-- C5. In every run, a call that fails (a `listEntries`, `getSummoner`, `listMatchIDs`,
`matchExist`, `getMatch` or `saveMatch` call that returned an error) is the last call of the
run, `Run` has returned a non-nil error, and that error is the error of `runEntry` under the
text `failed run entry page N`, where `N` is the page of the last `listEntries` call. In
particular each of the four remote calls fails when the response has a status of 400 or
more. -/
theorem C5_fail_fast (env : Env) (c : Collector) (fuel : Nat) (files : String → Option Match)
    (pre post : List Event) (e : Event)
    (ht : (Run env c fuel files).2.trace = pre ++ e :: post) (hf : e.failed = true) :
    post = [] ∧
    (∃ page inner,
      (Run env c fuel files).1 =
        .returned (some (.wrapf ("failed run entry page " ++ toString page) inner)) ∧
      (listedPages (pre ++ [e])).getLast? = some page) ∧
    (∀ (h : List Event) (url : String) (resp : Response), env.NewRequest url = none →
      c.HttpCli h url = .ok resp → resp.StatusCode ≥ 400 →
      (∀ page, url = entriesURL page →
        ∃ err, listEntries env c h page = .error err) ∧
      (∀ summonerId, url = summonerURL summonerId →
        ∃ err, getSummoner env c h summonerId = .error err) ∧
      (∀ s : summoner, url = matchIDsURL c s →
        ∃ err, listMatchIDs env c h s = .error err) ∧
      (∀ mid, url = matchURL mid →
        ∃ err, getMatch env c h mid = .error err)) := by
  obtain ⟨hpost, page, inner, hr, -, hpg⟩ := Run_failed_event env c fuel files pre post e ht hf
  subst hpost
  refine ⟨rfl, ⟨page, inner, hr, by rw [← ht]; exact hpg⟩, ?_⟩
  intro h url resp hreq hresp hcode
  refine ⟨?_, ?_, ?_, ?_⟩
  · rintro page rfl
    exact ⟨.errorf ("got error status code: " ++ resp.dump), by simp [listEntries, hreq, hresp, hcode]⟩
  · rintro summonerId rfl
    exact ⟨.errorf ("got error status code: " ++ resp.dump), by simp [getSummoner, hreq, hresp, hcode]⟩
  · rintro s rfl
    exact ⟨.errorf ("got error status code: " ++ resp.dump), by simp [listMatchIDs, hreq, hresp, hcode]⟩
  · rintro mid rfl
    exact ⟨.errorf ("got error status code: " ++ resp.dump), by simp [getMatch, hreq, hresp, hcode]⟩

/-- C5 at a run in which the lookup of the first summoner is answered with status 500. -/
theorem C5_fail_fast_witness :
    ((Run demoEnv (brokenCli (summonerURL "summonerA") 500 []) 5 demoFiles).2.trace =
      [.listEntries 1 (some [some ⟨"league", "summonerA"⟩, some ⟨"league", "summonerB"⟩])] ++
        .getSummoner "summonerA" none :: [] ∧
      (Event.getSummoner "summonerA" none).failed = true) ∧
    ∃ page inner,
      (Run demoEnv (brokenCli (summonerURL "summonerA") 500 []) 5 demoFiles).1 =
        .returned (some (.wrapf ("failed run entry page " ++ toString page) inner)) ∧
      (listedPages
        ([.listEntries 1 (some [some ⟨"league", "summonerA"⟩, some ⟨"league", "summonerB"⟩])] ++
          [.getSummoner "summonerA" none])).getLast? = some page :=
  ⟨⟨by decide, rfl⟩, (C5_fail_fast demoEnv (brokenCli (summonerURL "summonerA") 500 []) 5
    demoFiles [.listEntries 1 (some [some ⟨"league", "summonerA"⟩, some ⟨"league", "summonerB"⟩])] []
    (.getSummoner "summonerA" none) (by decide) rfl).2.1⟩

/-- C6, refuted: a response with status 304 is not an error. `listEntries` decodes the body of
such a response, and `getMatch` returns its (empty) body as the record, which `Run` then
stores as the record of m2 before it returns nil. -/
theorem C6_counterexample :
    listEntries demoEnv (brokenCli (entriesURL 1) 304 [0]) [] 1 = .ok [] ∧
    getMatch demoEnv (brokenCli (matchURL "m2") 304 []) [] "m2" = .ok [] ∧
    (Run demoEnv (brokenCli (matchURL "m2") 304 []) 5 demoFiles).1 = .returned none ∧
    (Run demoEnv (brokenCli (matchURL "m2") 304 []) 5 demoFiles).2.files "out/m2.json" =
      some [] := by
  decide

/-- C6, amended. For each of `listEntries`, `getSummoner`, `listMatchIDs` and `getMatch`, a
response with a status of 400 or more makes the method return the error
`got error status code: <dump>` without decoding the body; a response with any status below
400 is decoded, whatever the status. In a run a failed call is the last call and `Run`
returns an error. -/
theorem C6_status_400_is_fatal (env : Env) (c : Collector) (h : List Event) (url : String)
    (resp : Response) (hreq : env.NewRequest url = none) (hresp : c.HttpCli h url = .ok resp) :
    (∀ page, url = entriesURL page → listEntries env c h page =
      if resp.StatusCode ≥ 400 then .error (.errorf ("got error status code: " ++ resp.dump))
      else match env.decodeEntries resp.Body with
        | .error err => .error (.wrapf "json" (.external err))
        | .ok entries => .ok entries) ∧
    (∀ summonerId, url = summonerURL summonerId → getSummoner env c h summonerId =
      if resp.StatusCode ≥ 400 then .error (.errorf ("got error status code: " ++ resp.dump))
      else match env.decodeSummoner resp.Body with
        | .error err => .error (.wrapf "json" (.external err))
        | .ok s => .ok s) ∧
    (∀ s, url = matchIDsURL c s → listMatchIDs env c h s =
      if resp.StatusCode ≥ 400 then .error (.errorf ("got error status code: " ++ resp.dump))
      else match env.decodeMatchIDs resp.Body with
        | .error err => .error (.wrapf "json" (.external err))
        | .ok res => .ok res) ∧
    (∀ mid, url = matchURL mid → getMatch env c h mid =
      if resp.StatusCode ≥ 400 then .error (.errorf ("got error status code: " ++ resp.dump))
      else match ioReadAll resp.Body with
        | .error err => .error (.wrapf "reading body" (.external err))
        | .ok res => .ok res) ∧
    (∀ (fuel : Nat) (files : String → Option Match) (pre post : List Event) (e : Event),
      (Run env c fuel files).2.trace = pre ++ e :: post → e.failed = true →
      post = [] ∧ ∃ err, (Run env c fuel files).1 = .returned (some err)) := by
  refine ⟨?_, ?_, ?_, ?_, ?_⟩
  · rintro page rfl
    simp only [listEntries, hreq, hresp]
  · rintro summonerId rfl
    simp only [getSummoner, hreq, hresp]
  · rintro s rfl
    simp only [listMatchIDs, hreq, hresp]
  · rintro mid rfl
    simp only [getMatch, hreq, hresp]
  · intro fuel files pre post e ht hf
    obtain ⟨hpost, page, inner, hr, -, -⟩ := Run_failed_event env c fuel files pre post e ht hf
    exact ⟨hpost, _, hr⟩

/-- C6 amended, at the lookup of the summoner A answered with status 500. -/
theorem C6_status_400_is_fatal_witness :
    (demoEnv.NewRequest (summonerURL "summonerA") = none ∧
      (brokenCli (summonerURL "summonerA") 500 []).HttpCli [] (summonerURL "summonerA") =
        .ok ⟨500, ⟨[], none⟩, "HTTP/1.1 500"⟩) ∧
    getSummoner demoEnv (brokenCli (summonerURL "summonerA") 500 []) [] "summonerA" =
      .error (.errorf "got error status code: HTTP/1.1 500") :=
  ⟨⟨by decide, by decide⟩,
    ((C6_status_400_is_fatal demoEnv (brokenCli (summonerURL "summonerA") 500 []) []
      (summonerURL "summonerA") ⟨500, ⟨[], none⟩, "HTTP/1.1 500"⟩ (by decide) (by decide)).2.1
      "summonerA" rfl).trans (by decide)⟩

/-- C7, refuted: when the lookup of the summoner `summonerA` is answered with status 500, the
error of `Run` does not contain the summoner id, and when the request for the match m2 is
answered with status 500, the error of `Run` does not contain the match id. -/
theorem C7_counterexample :
    (Run demoEnv (brokenCli (summonerURL "summonerA") 500 []) 5 demoFiles).2.trace =
      [.listEntries 1 (some [some ⟨"league", "summonerA"⟩, some ⟨"league", "summonerB"⟩]),
        .getSummoner "summonerA" none] ∧
    (Run demoEnv (brokenCli (summonerURL "summonerA") 500 []) 5 demoFiles).1 =
      .returned (some (.wrapf "failed run entry page 1"
        (.wrapf "failed to get summoner" (.errorf "got error status code: HTTP/1.1 500")))) ∧
    (GoError.wrapf "failed run entry page 1"
      (.wrapf "failed to get summoner" (.errorf "got error status code: HTTP/1.1 500"))).text =
      "failed run entry page 1: failed to get summoner: got error status code: HTTP/1.1 500" ∧
    mentions
      "failed run entry page 1: failed to get summoner: got error status code: HTTP/1.1 500"
      "summonerA" = false ∧
    ((Run demoEnv (brokenCli (matchURL "m2") 500 []) 5 demoFiles).2.trace.getLast? =
      some (.getMatch "m2" none)) ∧
    (Run demoEnv (brokenCli (matchURL "m2") 500 []) 5 demoFiles).1 =
      .returned (some (.wrapf "failed run entry page 1"
        (.wrapf "failed to get match" (.errorf "got error status code: HTTP/1.1 500")))) ∧
    (GoError.wrapf "failed run entry page 1"
      (.wrapf "failed to get match" (.errorf "got error status code: HTTP/1.1 500"))).text =
      "failed run entry page 1: failed to get match: got error status code: HTTP/1.1 500" ∧
    mentions
      "failed run entry page 1: failed to get match: got error status code: HTTP/1.1 500"
      "m2" = false := by
  set_option maxRecDepth 100000 in decide

/-- C7, amended. The error of a failing run is the error the failed call returned, which is
the last call of the run, under two fixed texts: the text of `runEntry` that names the
operation that failed, and above it `failed run entry page N`, where `N` is the page of the
last `listEntries` call. The error of the failed call is the one the method returns for the
history up to the call, and it is made of a fixed text of the method and what the
environment gave: `invalid request`, `http`, `json`, `reading body`, `os.Stat`, `os.Create`
or `writing failed` over the message of the library call that failed, or
`got error status code: ` followed by the dump of the response whose status was 400 or
more. The code adds no summoner id and no match id anywhere in the message. -/
theorem C7_error_context (env : Env) (c : Collector) (fuel : Nat)
    (files : String → Option Match) (err : GoError)
    (h : (Run env c fuel files).1 = .returned (some err)) :
    ∃ page pre e cause,
      (Run env c fuel files).2.trace = pre ++ [e] ∧ e.failed = true ∧
      (listedPages (Run env c fuel files).2.trace).getLast? = some page ∧
      Returned env c pre e cause ∧ Produced env c pre e cause ∧
      err = .wrapf ("failed run entry page " ++ toString page) (.wrapf e.label cause) ∧
      err.text =
        "failed run entry page " ++ toString page ++ ": " ++ (e.label ++ ": " ++ cause.text) := by
  obtain ⟨page, inner, he, ⟨pre, e, cause, hl, hf, hi, hc⟩, hpg⟩ :=
    (RunFrom_outcome env c fuel 1 ⟨files, []⟩).2 err h
  subst hi
  subst he
  exact ⟨page, pre, e, cause, hl, hf, hpg, hc.returned, hc, rfl, rfl⟩

/-- C7 amended, at the lookup of the summoner A answered with status 500. -/
theorem C7_error_context_witness :
    (Run demoEnv (brokenCli (summonerURL "summonerA") 500 []) 5 demoFiles).1 =
      .returned (some (.wrapf "failed run entry page 1"
        (.wrapf "failed to get summoner" (.errorf "got error status code: HTTP/1.1 500")))) ∧
    ∃ page pre e cause,
      (Run demoEnv (brokenCli (summonerURL "summonerA") 500 []) 5 demoFiles).2.trace =
        pre ++ [e] ∧ e.failed = true ∧
      (listedPages (Run demoEnv (brokenCli (summonerURL "summonerA") 500 []) 5
        demoFiles).2.trace).getLast? = some page ∧
      Returned demoEnv (brokenCli (summonerURL "summonerA") 500 []) pre e cause ∧
      Produced demoEnv (brokenCli (summonerURL "summonerA") 500 []) pre e cause ∧
      GoError.wrapf "failed run entry page 1"
        (.wrapf "failed to get summoner" (.errorf "got error status code: HTTP/1.1 500")) =
        .wrapf ("failed run entry page " ++ toString page) (.wrapf e.label cause) ∧
      (GoError.wrapf "failed run entry page 1"
        (.wrapf "failed to get summoner" (.errorf "got error status code: HTTP/1.1 500"))).text =
        "failed run entry page " ++ toString page ++ ": " ++ (e.label ++ ": " ++ cause.text) :=
  ⟨by decide, C7_error_context demoEnv (brokenCli (summonerURL "summonerA") 500 []) 5 demoFiles
    _ (by decide)⟩

/-- C8. In every run, whatever the `saveMatch` calls return, each match id is the subject of
at most one `getMatch` call and at most one `saveMatch` call, however many listings contain
it, and of none if its file is in the output directory when the run starts. In the scenario
of the specification (page 1 lists A and B, A has m1 and m2 with m1 stored, B has m2) the
run returns nil after exactly the calls below: one `getMatch` and one `saveMatch` of m2,
while processing A, and none of m1. -/
theorem C8_fetched_at_most_once (env : Env) (c : Collector) (fuel : Nat)
    (files : String → Option Match) (mid : matchID) :
    (fetchCount mid (Run env c fuel files).2.trace ≤ 1 ∧
      saveCount mid (Run env c fuel files).2.trace ≤ 1 ∧
      ((files (matchPath env c mid)).isSome = true →
        fetchCount mid (Run env c fuel files).2.trace = 0 ∧
        saveCount mid (Run env c fuel files).2.trace = 0)) ∧
    ((Run demoEnv demoCli 5 demoFiles).1 = .returned none ∧
      (Run demoEnv demoCli 5 demoFiles).2.trace =
        [.listEntries 1 (some [some ⟨"league", "summonerA"⟩, some ⟨"league", "summonerB"⟩]),
          .getSummoner "summonerA" (some ⟨"puuidA"⟩),
          .listMatchIDs "puuidA" (some ["m1", "m2"]),
          .matchExist "m1" (some true),
          .matchExist "m2" (some false),
          .getMatch "m2" (some [7, 7]),
          .saveMatch "m2" [7, 7] true,
          .getSummoner "summonerB" (some ⟨"puuidB"⟩),
          .listMatchIDs "puuidB" (some ["m2"]),
          .matchExist "m2" (some true),
          .listEntries 2 (some [])] ∧
      fetchCount "m2" (Run demoEnv demoCli 5 demoFiles).2.trace = 1 ∧
      saveCount "m2" (Run demoEnv demoCli 5 demoFiles).2.trace = 1 ∧
      fetchCount "m1" (Run demoEnv demoCli 5 demoFiles).2.trace = 0 ∧
      saveCount "m1" (Run demoEnv demoCli 5 demoFiles).2.trace = 0 ∧
      (Run demoEnv demoCli 5 demoFiles).2.files "out/m2.json" = some [7, 7]) := by
  have h := Run_count env c fuel files mid
  exact ⟨⟨h.2.1, h.2.2, h.1⟩, by decide⟩

/-- C9. A record that is in the output directory when a run starts is there, unchanged, when
the run stops, however it stops. The same holds from every point of a run on, and for each
part of a run from any state: the processing of a page, of an entry and of a match id, and a
`saveMatch` call of an id whose file is absent. In a run, `saveMatch` is called only directly
after the `getMatch` call that returned the record, itself directly after a `matchExist` call
that reported the id as absent. -/
theorem C9_records_written_once (env : Env) (c : Collector) (fuel : Nat)
    (files : String → Option Match) (path : String) (rec : Match)
    (h : files path = some rec) :
    (Run env c fuel files).2.files path = some rec ∧
    (∀ (fuel1 : Nat) (page : Int) (st : State), st.files path = some rec →
      (RunFrom env c fuel1 page st).2.files path = some rec) ∧
    (∀ (st : State) (page : Int), st.files path = some rec →
      (runEntry env c st page).2.files path = some rec) ∧
    (∀ (st : State) (e : Option entry), st.files path = some rec →
      (processEntry env c st e).2.files path = some rec) ∧
    (∀ (st : State) (mid : matchID), st.files path = some rec →
      (processMatch env c st mid).2.files path = some rec) ∧
    (∀ (st : State) (mid : matchID) (m : Match), st.files (matchPath env c mid) = none →
      st.files path = some rec → (saveMatch env c st mid m).2.files path = some rec) ∧
    (∀ (pre post : List Event) (mid : matchID) (m : Match) (ok : Bool),
      (Run env c fuel files).2.trace = pre ++ .saveMatch mid m ok :: post →
      ∃ pre1, pre = pre1 ++ [.matchExist mid (some false), .getMatch mid (some m)]) := by
  refine ⟨RunFrom_frame env c fuel 1 ⟨files, []⟩ path rec h,
    fun fuel1 page st h1 => RunFrom_frame env c fuel1 page st path rec h1,
    fun st page h1 => runEntry_frame env c st page path rec h1,
    fun st e h1 => processEntry_frame env c st e path rec h1,
    fun st mid h1 => processMatch_frame env c st mid path rec h1,
    fun st mid m habs h1 => ?_,
    fun pre post mid m ok ht => Run_before_save env c fuel files pre post mid m ok ht⟩
  have hne : path ≠ matchPath env c mid := fun he => by rw [he, habs] at h1; cases h1
  rw [saveMatch_frame env c st mid m path hne]
  exact h1

/-- C9 at the scenario of the specification: the record of m1 is kept. -/
theorem C9_records_written_once_witness :
    demoFiles "out/m1.json" = some [9] ∧
    (Run demoEnv demoCli 5 demoFiles).2.files "out/m1.json" = some [9] :=
  ⟨by decide,
    (C9_records_written_once demoEnv demoCli 5 demoFiles "out/m1.json" [9] (by decide)).1⟩

/-- C10. When `Run` returns nil, every match id returned by a `listMatchIDs` call of the run
has its file in the output directory at the end; and wherever in the run `matchExist`
reported such an id as absent (as at its first encounter, if it was absent then), the next
two calls are the `getMatch` of the id, which returned a record, and the successful
`saveMatch` of that record, and at the end the file of the id holds exactly that record. -/
theorem C10_successful_run_is_complete (env : Env) (c : Collector) (fuel : Nat)
    (files : String → Option Match) (puuid : String) (mids : List matchID) (mid : matchID)
    (h : (Run env c fuel files).1 = .returned none)
    (hl : Event.listMatchIDs puuid (some mids) ∈ (Run env c fuel files).2.trace)
    (hm : mid ∈ mids) :
    ((Run env c fuel files).2.files (matchPath env c mid)).isSome = true ∧
    ∀ pre post, (Run env c fuel files).2.trace = pre ++ .matchExist mid (some false) :: post →
      ∃ m post1, post = .getMatch mid (some m) :: .saveMatch mid m true :: post1 ∧
        getMatch env c (pre ++ [.matchExist mid (some false)]) mid = .ok m ∧
        (Run env c fuel files).2.files (matchPath env c mid) = some m := by
  have hJ := (RunFrom_listed env c fuel 1 ⟨files, []⟩ (fun mid hmid => by simp [listedIDs] at hmid)).2 h
  refine ⟨hJ mid (mem_listedIDs.2 ⟨puuid, mids, hl, hm⟩), fun pre post ht => ?_⟩
  have hch := (Run_chain env c fuel files).1
  obtain ⟨p, hlast⟩ := (RunFrom_outcome env c fuel 1 ⟨files, []⟩).1 h
  have hlast1 : (Run env c fuel files).2.trace.getLast? = some (.listEntries p (some [])) := hlast
  cases post with
  | nil =>
    rw [ht] at hlast1
    simp at hlast1
  | cons x post0 =>
    obtain ⟨r, rfl⟩ := follows_absent (chain_next pre post0 _ _ hch ht)
    have hx := Run_nil_no_failure env c fuel files h (pre ++ [.matchExist mid (some false)])
      post0 (.getMatch mid r) (by rw [ht]; simp)
    cases r with
    | none => cases hx
    | some m =>
      cases post0 with
      | nil =>
        rw [ht] at hlast1
        simp at hlast1
      | cons y post1 =>
        have hy1 : follows (.getMatch mid (some m)) y = true :=
          chain_next (pre ++ [.matchExist mid (some false)]) post1 _ _ hch (by rw [ht]; simp)
        obtain ⟨ok, rfl⟩ := follows_fetched hy1
        have hy := Run_nil_no_failure env c fuel files h
          (pre ++ [.matchExist mid (some false), .getMatch mid (some m)]) post1
          (.saveMatch mid m ok) (by rw [ht]; simp)
        cases ok with
        | false => cases hy
        | true =>
          refine ⟨m, post1, rfl, ?_, ?_⟩
          · have hG := Run_logged env c fuel files (pre.length + 1) mid m
              (by rw [ht]; exact getElem_succ_append pre _ _ _)
            rw [ht, take_succ_append] at hG
            exact hG
          · exact Run_saved env c fuel files mid m (by rw [ht]; simp)

/-- C10 at the scenario of the specification, for the id m2 listed for A. -/
theorem C10_successful_run_is_complete_witness :
    ((Run demoEnv demoCli 5 demoFiles).1 = .returned none ∧
      Event.listMatchIDs "puuidA" (some ["m1", "m2"]) ∈ (Run demoEnv demoCli 5 demoFiles).2.trace ∧
      "m2" ∈ ["m1", "m2"]) ∧
    ((Run demoEnv demoCli 5 demoFiles).2.files (matchPath demoEnv demoCli "m2")).isSome = true :=
  ⟨⟨by decide, by decide, by decide⟩,
    (C10_successful_run_is_complete demoEnv demoCli 5 demoFiles "puuidA" ["m1", "m2"] "m2"
      (by decide) (by decide) (by decide)).1⟩

end Lolmatch
